import Mathlib

/-!
# Reward & Combat-Power Aggregation Engine — verification development

A shallow embedding of the reward/combat-power subsystem of the
`canlan.org` Go repository (`internal/services/node.go`, the block-reward
and referral services, and the SQL queries they invoke), together with
proofs and refutations of the specified properties.

Modelling conventions:
* `shopspring/decimal` values are modelled as rationals (`ℚ`).  `Add` and
  `Mul` are exact in the library; `Div` rounds the quotient to
  `DivisionPrecision = 16` decimal places, half away from zero, which is
  modelled by `decDiv` below.
* UUIDs are modelled as `ℕ`, with `0` playing the role of `uuid.Nil`.
* Each SQL table is a list of rows inside `DBState`; `INSERT` appends,
  `UPDATE` maps over rows.  Fresh row ids come from the `nextID` counter.
* Fallible inserts/updates whose errors the Go code logs and skips are
  modelled by explicit failure-oracle parameters (lists of ids whose
  write fails); the normal path instantiates them with `[]`.
* The package-level mutable `canTokenID` cache of the Go code is a field
  of `DBState`; the `panic` in `mustGetCANTokenID` is an `Except.error`
  carrying the database state at the moment of the abort.
-/

namespace Canlan

/-- A `shopspring/decimal` value, modelled as an exact rational. -/
abbrev Dec := ℚ

/-- `decimal.DivisionPrecision` is 16, so `Div` results carry 16 decimal
places; `decScale` is `10 ^ 16`. -/
def decScale : ℚ := 10000000000000000

/-- Round a rational to the nearest integer, halves away from zero — the
rounding mode of `decimal.DivRound`. -/
def roundHalfAway (q : ℚ) : ℤ :=
  if 0 ≤ q then ⌊q + 1 / 2⌋ else -⌊-q + 1 / 2⌋

/-- `Decimal.Div`: the exact quotient rounded to `DivisionPrecision = 16`
decimal places, half away from zero. -/
def decDiv (a b : Dec) : Dec :=
  (roundHalfAway (a / b * decScale) : ℚ) / decScale

/-! ## Data model (tables from `000001_init_schema.up.sql`) -/

/-- A row of `users` (the columns the engine reads). -/
structure GUser where
  id : ℕ
  parentID : Option ℕ
  invitedBy : Option ℕ
  deriving DecidableEq, Repr

/-- A row of `combat_power`. -/
structure CombatPower where
  userID : ℕ
  personalPower : Dec
  networkPower : Dec
  lpWeight : Dec
  burnPower : Dec
  deriving DecidableEq, Repr

/-- A row of `mint_blocks`. -/
structure MintBlock where
  id : ℕ
  blockNumber : ℤ
  totalReward : Dec
  distributed : Bool
  deriving DecidableEq, Repr

/-- A row of `weight_snapshots`. -/
structure WeightSnapshot where
  userID : ℕ
  blockID : ℕ
  transactionWeight : Dec
  lpWeight : Dec
  burnWeight : Dec
  deriving DecidableEq, Repr

/-- A row of `block_rewards`. -/
structure BlockReward where
  id : ℕ
  userID : ℕ
  blockID : ℕ
  amount : Dec
  weightValue : Dec
  claimed : Bool
  deriving DecidableEq, Repr

/-- A row of `tokens` (the columns the engine reads). -/
structure Token where
  id : ℕ
  symbol : String
  deriving DecidableEq, Repr

/-- A row of `user_balances`. -/
structure UserBalance where
  userID : ℕ
  tokenID : ℕ
  balance : Dec
  deriving DecidableEq, Repr

/-- A row of `user_nodes`. -/
structure UserNode where
  userID : ℕ
  currentLevel : ℤ
  teamPower : Dec
  teamMembers : ℤ
  directReferrals : ℤ
  deriving DecidableEq, Repr

/-- The transactional store, one list per table, plus the package-level
`canTokenID` cache and a fresh-id counter for generated row ids. -/
structure DBState where
  users : List GUser
  combatPowers : List CombatPower
  blocks : List MintBlock
  snapshots : List WeightSnapshot
  rewards : List BlockReward
  balances : List UserBalance
  tokens : List Token
  userNodes : List UserNode
  canCache : Option ℕ
  nextID : ℕ
  deriving DecidableEq, Repr

/-! ## Query layer -/

/-- Modelled from the spec: `GetBlockByID` — the query file is absent from
the repository; looks a `mint_blocks` row up by primary key. -/
def GetBlockByID (st : DBState) (blockID : ℕ) : Option MintBlock :=
  st.blocks.find? (fun b => b.id == blockID)

/-- Modelled from the spec: `GetWeightSnapshotsByBlock` — the query file is
absent; all `weight_snapshots` rows of one block. -/
def GetWeightSnapshotsByBlock (st : DBState) (blockID : ℕ) : List WeightSnapshot :=
  st.snapshots.filter (fun s => s.blockID == blockID)

/-- A snapshot's total weight: `transaction + LP + burn`
(`DistributeRewards`, `node.go`). -/
def snapTotalWeight (s : WeightSnapshot) : Dec :=
  s.transactionWeight + s.lpWeight + s.burnWeight

/-- Modelled from the spec: `UpdateBlockDistributed` — the query file is
absent; sets the `distributed` flag of one block. -/
def UpdateBlockDistributed (st : DBState) (blockID : ℕ) : DBState :=
  { st with blocks := st.blocks.map (fun b =>
      if b.id == blockID then { b with distributed := true } else b) }

/-- Modelled from the spec: `CreateBlockReward` — the query file is absent;
inserts one `block_rewards` row (`claimed = false`, generated id).  The
schema puts no uniqueness constraint on `(user_id, block_id)`. -/
def CreateBlockReward (st : DBState) (userID blockID : ℕ) (amount weightValue : Dec) :
    DBState :=
  { st with
    rewards := st.rewards ++
      [{ id := st.nextID, userID := userID, blockID := blockID,
         amount := amount, weightValue := weightValue, claimed := false }],
    nextID := st.nextID + 1 }

/-! ## `DistributeRewards` (`node.go` lines 619–680) -/

/-- The `block_rewards` rows created by the distribution loop: one row per
nonzero-weight snapshot whose insert succeeds, with
`share = totalReward * userWeight / totalWeight` computed by decimal
division.  `fails` is the failure oracle for `CreateBlockReward` (errors
are logged and the loop continues, `node.go` 667–671). -/
def mkRewards (totalReward : Dec) (blockID : ℕ) (totalWeight : Dec) (fails : List ℕ) :
    List WeightSnapshot → ℕ → List BlockReward
  | [], _ => []
  | s :: rest, nid =>
    let w := snapTotalWeight s
    if w = 0 then mkRewards totalReward blockID totalWeight fails rest nid
    else if s.userID ∈ fails then mkRewards totalReward blockID totalWeight fails rest nid
    else
      { id := nid, userID := s.userID, blockID := blockID,
        amount := decDiv (totalReward * w) totalWeight, weightValue := w,
        claimed := false } :: mkRewards totalReward blockID totalWeight fails rest (nid + 1)

/-- `DistributeRewards` (`node.go` 619–680): loads the block and its weight
snapshots, sums the total weight; if it is zero, marks the block distributed
and stops; otherwise creates one reward row per nonzero-weight snapshot and
then marks the block distributed.  There is no check of the block's
`distributed` flag anywhere in the function. -/
def DistributeRewards (st : DBState) (blockID : ℕ) (fails : List ℕ) :
    Except String DBState :=
  match GetBlockByID st blockID with
  | none => .error "block not found"
  | some block =>
    let snaps := GetWeightSnapshotsByBlock st blockID
    let totalWeight := (snaps.map snapTotalWeight).sum
    if totalWeight = 0 then
      .ok (UpdateBlockDistributed st blockID)
    else
      let created := mkRewards block.totalReward blockID totalWeight fails snaps st.nextID
      .ok (UpdateBlockDistributed
        { st with rewards := st.rewards ++ created, nextID := st.nextID + created.length }
        blockID)

/-- Sum of the reward amounts recorded for one block. -/
def rewardSumForBlock (st : DBState) (blockID : ℕ) : Dec :=
  ((st.rewards.filter (fun r => r.blockID == blockID)).map (fun r => r.amount)).sum

/-- Number of reward rows recorded for one block. -/
def rewardCountForBlock (st : DBState) (blockID : ℕ) : ℕ :=
  (st.rewards.filter (fun r => r.blockID == blockID)).length

/-! ## `CalculateWeights` (`node.go` lines 570–615) -/

/-- `GetTokenBySymbol` (`purchases.sql`): look a token up by symbol. -/
def GetTokenBySymbol (st : DBState) (symbol : String) : Option Token :=
  st.tokens.find? (fun t => t.symbol == symbol)

/-- `GetUserBalanceBySymbol` (`purchases.sql`): a user's balance row joined
through the token symbol.  The Go caller discards the error and reads the
zero value, so absence yields balance `0` (`node.go` 579–583). -/
def GetUserBalanceBySymbol (st : DBState) (userID : ℕ) (symbol : String) : Dec :=
  match GetTokenBySymbol st symbol with
  | none => 0
  | some t =>
    match st.balances.find? (fun b => b.userID == userID && b.tokenID == t.id) with
    | none => 0
    | some b => b.balance

/-- `GetCombatPower` (`combat_power.sql`): the `combat_power` row of a user. -/
def GetCombatPower (st : DBState) (userID : ℕ) : Option CombatPower :=
  st.combatPowers.find? (fun c => c.userID == userID)

/-- `CreateWeightSnapshot` (`combat_power.sql`): insert one
`weight_snapshots` row.  The schema puts no uniqueness constraint on
`(user_id, block_id)`. -/
def CreateWeightSnapshot (st : DBState) (userID blockID : ℕ) (tw lw bw : Dec) : DBState :=
  { st with snapshots := st.snapshots ++
      [{ userID := userID, blockID := blockID, transactionWeight := tw,
         lpWeight := lw, burnWeight := bw }] }

/-- The snapshot loop body of `CalculateWeights` for one user: transaction
weight is the CAN balance, LP and burn weight come from `combat_power`
(`0` when the row is missing); a failed insert is logged and skipped
(`snapFails` oracle). -/
def snapshotUser (blockID : ℕ) (snapFails : List ℕ) (st : DBState) (u : GUser) : DBState :=
  let transactionWeight := GetUserBalanceBySymbol st u.id "CAN"
  let lpWeight := match GetCombatPower st u.id with | none => 0 | some cp => cp.lpWeight
  let burnWeight := match GetCombatPower st u.id with | none => 0 | some cp => cp.burnPower
  if u.id ∈ snapFails then st
  else CreateWeightSnapshot st u.id blockID transactionWeight lpWeight burnWeight

/-- `CalculateWeights` (`node.go` 570–615): snapshots every user returned by
`GetAllUsers` (the whole `users` table), then immediately calls
`DistributeRewards` for the block. -/
def CalculateWeights (st : DBState) (blockID : ℕ) (snapFails insertFails : List ℕ) :
    Except String DBState :=
  let st' := st.users.foldl (snapshotUser blockID snapFails) st
  DistributeRewards st' blockID insertFails

/-! ## `ClaimRewards` (`node.go` lines 688–727) and `mustGetCANTokenID` -/

/-- `GetBlockReward`: look a `block_rewards` row up by primary key
(the query file is absent from the repository; modelled from the spec). -/
def GetBlockReward (st : DBState) (rewardID : ℕ) : Option BlockReward :=
  st.rewards.find? (fun r => r.id == rewardID)

/-- The `ClaimReward` query (`combat_power.sql` 39–42):
`UPDATE block_rewards SET claimed = true, claimed_at = NOW()
WHERE id = $1 AND user_id = $2`.  Note there is no `claimed = false`
condition in the `WHERE` clause. -/
def ClaimReward (st : DBState) (rewardID userID : ℕ) : DBState :=
  { st with rewards := st.rewards.map (fun r =>
      if r.id == rewardID && r.userID == userID then { r with claimed := true } else r) }

/-- `AddUserBalance` (`purchases.sql` 351–356):
`UPDATE user_balances SET balance = balance + $3 WHERE user_id = $1 AND
token_id = $2`.  An `UPDATE` matching no row succeeds without effect. -/
def AddUserBalance (st : DBState) (userID tokenID : ℕ) (amount : Dec) : DBState :=
  { st with balances := st.balances.map (fun b =>
      if b.userID == userID && b.tokenID == tokenID
      then { b with balance := b.balance + amount } else b) }

/-- `mustGetCANTokenID` (`node.go` 797–809): returns the cached CAN token
id when the package-level cache is set; otherwise looks the token up by
symbol, panicking when it is absent, and fills the cache.  The panic is
modelled as `Except.error`. -/
def mustGetCANTokenID (st : DBState) : Except String (ℕ × DBState) :=
  match st.canCache with
  | some tid => .ok (tid, st)
  | none =>
    match GetTokenBySymbol st "CAN" with
    | none => .error "CAN token not found in database"
    | some token => .ok (token.id, { st with canCache := some token.id })

/-- The claim loop of `ClaimRewards`: for each requested id, skip when the
row is missing, owned by someone else, or already claimed; otherwise mark
it claimed (skipping on a failed update, oracle `claimFails`), resolve the
CAN token id (a panic aborts the whole call, leaving the flag already
set), and credit the balance (a failed credit — oracle `creditFails` — is
logged and skipped, leaving the row claimed but uncredited).  The returned
total accumulates only the amounts whose credit succeeded. -/
def claimLoop (userID : ℕ) (claimFails creditFails : List ℕ) :
    List ℕ → DBState → Dec → Except (String × DBState) (DBState × Dec)
  | [], st, total => .ok (st, total)
  | rewardID :: rest, st, total =>
    match GetBlockReward st rewardID with
    | none => claimLoop userID claimFails creditFails rest st total
    | some reward =>
      if reward.userID ≠ userID ∨ reward.claimed then
        claimLoop userID claimFails creditFails rest st total
      else if rewardID ∈ claimFails then
        claimLoop userID claimFails creditFails rest st total
      else
        let st1 := ClaimReward st rewardID userID
        match mustGetCANTokenID st1 with
        | .error msg => .error (msg, st1)
        | .ok (tid, st2) =>
          if rewardID ∈ creditFails then
            claimLoop userID claimFails creditFails rest st2 total
          else
            claimLoop userID claimFails creditFails rest
              (AddUserBalance st2 userID tid reward.amount) (total + reward.amount)

/-- `ClaimRewards` (`node.go` 688–727). -/
def ClaimRewards (st : DBState) (userID : ℕ) (rewardIDs : List ℕ)
    (claimFails creditFails : List ℕ) : Except (String × DBState) (DBState × Dec) :=
  claimLoop userID claimFails creditFails rewardIDs st 0

/-- Sum of the amounts of all claimed reward rows. -/
def sumClaimed (st : DBState) : Dec :=
  ((st.rewards.filter (fun r => r.claimed)).map (fun r => r.amount)).sum

/-- A user's balance in one token (sum of the matching rows; the primary
key makes at most one row match). -/
def getBalance (st : DBState) (userID tokenID : ℕ) : Dec :=
  ((st.balances.filter (fun b => b.userID == userID && b.tokenID == tokenID)).map
    (fun b => b.balance)).sum

/-! ## `updateAncestorsTeamPower` (`node.go` lines 448–478) -/

/-- `GetUserByID` (`users.sql`): look a user up by primary key. -/
def GetUserByID (st : DBState) (userID : ℕ) : Option GUser :=
  st.users.find? (fun u => u.id == userID)

/-- Modelled from the spec: `AddTeamPower` — the query file is absent;
adds a delta to one user's team-power field. -/
def AddTeamPower (st : DBState) (userID : ℕ) (delta : Dec) : DBState :=
  { st with userNodes := st.userNodes.map (fun n =>
      if n.userID == userID then { n with teamPower := n.teamPower + delta } else n) }

/-- The upward walk of `updateAncestorsTeamPower`, indexed by fuel:
`none` means the loop would still be running after `fuel` iterations.
Each iteration adds the delta to the current ancestor's team power, then
follows `parent_id`; it stops at `uuid.Nil` (modelled as `0`), at a
missing user, or at a user with no parent.  The Go loop has no depth
guard and no visited set. -/
def ancestorLoop (delta : Dec) : ℕ → ℕ → DBState → Option DBState
  | 0, current, st => if current = 0 then some st else none
  | fuel + 1, current, st =>
    if current = 0 then some st
    else
      let st1 := AddTeamPower st current delta
      match GetUserByID st1 current with
      | none => some st1
      | some u =>
        match u.parentID with
        | none => some st1
        | some p => ancestorLoop delta fuel p st1

/-- `updateAncestorsTeamPower` (`node.go` 448–478): reads the user's
personal power and walks the referral chain upward from the inviter.
`none` means the walk is still running after `fuel` iterations. -/
def updateAncestorsTeamPower (st : DBState) (userID inviterID : ℕ) (fuel : ℕ) :
    Option (Except String DBState) :=
  match GetCombatPower st userID with
  | none => some (.error "combat power not found")
  | some cp => (ancestorLoop cp.personalPower fuel inviterID st).map .ok

/-! ## `RecalculateTeamStats` (`node.go` lines 85–117) and the recursive
team-tree queries (`nodes.sql`) -/

/-- `u` is a referral child of `p`: the edge condition
`invited_by = p OR parent_id = p` of the recursive CTEs in `nodes.sql`. -/
def isChildOf (u : GUser) (p : ℕ) : Bool :=
  u.invitedBy == some p || u.parentID == some p

/-- One round of the recursive team-tree CTE: add the ids of all users
having a parent among the already-collected ids. -/
def closeStep (users : List GUser) (visited : List ℕ) : List ℕ :=
  visited ++ (users.filter
    (fun u => !visited.contains u.id && visited.any (fun p => isChildOf u p))).map
      (fun u => u.id)

/-- The team tree of `root`: the least fixed point of the recursive CTE
`team_tree` (`nodes.sql` 101–124), computed by saturating `closeStep`
(`users.length + 1` rounds always suffice). -/
def teamClosure (users : List GUser) (root : ℕ) : List ℕ :=
  (closeStep users)^[users.length + 1] [root]

/-- The ids in the downline of `root` (the team tree minus `root` itself). -/
def downlineIDs (users : List GUser) (root : ℕ) : List ℕ :=
  (teamClosure users root).filter (fun v => v != root)

/-- `GetTeamPower` (`nodes.sql` 112–124):
`SELECT COALESCE(SUM(cp.personal_power), 0) FROM combat_power cp WHERE
cp.user_id IN (recursive team tree of $1)`. -/
def GetTeamPower (st : DBState) (root : ℕ) : Dec :=
  ((st.combatPowers.filter (fun c => (downlineIDs st.users root).contains c.userID)).map
    (fun c => c.personalPower)).sum

/-- `GetTeamMemberCount` (`nodes.sql`): the size of the recursive team
tree.  (The `UNION ALL` CTE would count diamond paths twice; on a forest
every member appears once, which is what the model counts.) -/
def GetTeamMemberCount (st : DBState) (root : ℕ) : ℕ :=
  (downlineIDs st.users root).length

/-- `GetDirectReferralCount` (`nodes.sql`):
`SELECT COUNT(*) FROM users WHERE invited_by = $1`. -/
def GetDirectReferralCount (st : DBState) (root : ℕ) : ℕ :=
  (st.users.filter (fun u => u.invitedBy == some root)).length

/-- `UpsertUserNode` (`nodes.sql` 55–73): insert the `user_nodes` row or
overwrite all its stat columns on conflict. -/
def UpsertUserNode (st : DBState) (userID : ℕ) (level : ℤ) (teamPower : Dec)
    (teamMembers directReferrals : ℤ) : DBState :=
  let row : UserNode :=
    { userID := userID, currentLevel := level, teamPower := teamPower,
      teamMembers := teamMembers, directReferrals := directReferrals }
  if st.userNodes.any (fun n => n.userID == userID) then
    { st with userNodes := st.userNodes.map (fun n => if n.userID == userID then row else n) }
  else
    { st with userNodes := st.userNodes ++ [row] }

/-- `GetUserNode` (`nodes.sql`): the `user_nodes` row of a user. -/
def GetUserNode (st : DBState) (userID : ℕ) : Option UserNode :=
  st.userNodes.find? (fun n => n.userID == userID)

/-- `RecalculateTeamStats` (`node.go` 85–117): recompute team power, team
member count and direct referral count from the referral tree and upsert
them into `user_nodes` (with `current_level` written as `0`). -/
def RecalculateTeamStats (st : DBState) (userID : ℕ) : DBState :=
  UpsertUserNode st userID 0 (GetTeamPower st userID)
    (GetTeamMemberCount st userID) (GetDirectReferralCount st userID)

/-- A referral edge from `p` down to `c`: some user row carries id `c`
and `invited_by = p` or `parent_id = p`. -/
def childEdge (users : List GUser) (p c : ℕ) : Prop :=
  ∃ u ∈ users, u.id = c ∧ isChildOf u p = true

/-- The downline relation as the claim states it: `v` is reachable from
`root` walking downward through `invited_by`/`parent_id` edges, one or
more steps (the recursive enumeration of the referral forest). -/
def InDownline (users : List GUser) (root v : ℕ) : Prop :=
  Relation.TransGen (childEdge users) root v

/-! ## `CreateNewBlock` (`node.go` lines 535–562) -/

/-- One step of the last-block fold: keep the row with the higher block
number. -/
def lastBlockStep (acc : Option MintBlock) (b : MintBlock) : Option MintBlock :=
  match acc with
  | none => some b
  | some m => if m.blockNumber < b.blockNumber then some b else some m

/-- Modelled from the spec: `GetLastMintBlock` — the query file is absent;
the last known block, i.e. the row with the highest block number. -/
def GetLastMintBlock (st : DBState) : Option MintBlock :=
  st.blocks.foldl lastBlockStep none

/-- Modelled from the spec: `CreateMintBlock` — the query file is absent;
inserts a `mint_blocks` row (generated id, `distributed = false`), failing
on the `UNIQUE` block-number constraint of the schema. -/
def CreateMintBlock (st : DBState) (blockNumber : ℤ) (totalReward : Dec) :
    Except String (DBState × MintBlock) :=
  if st.blocks.any (fun b => b.blockNumber == blockNumber) then
    .error "failed to create mint block"
  else
    let block : MintBlock :=
      { id := st.nextID, blockNumber := blockNumber, totalReward := totalReward,
        distributed := false }
    .ok ({ st with blocks := st.blocks ++ [block], nextID := st.nextID + 1 }, block)

/-- `CreateNewBlock` (`node.go` 535–562): allocates block number
`last + 1` (or `1` when no block exists), inserts the block with the fixed
reward of 1000 CAN, then runs `CalculateWeights` (snapshot + distribution)
for it, ignoring — only logging — any error from that phase. -/
def CreateNewBlock (st : DBState) (snapFails insertFails : List ℕ) :
    Except String (DBState × MintBlock) :=
  let nextBlockNumber : ℤ :=
    match GetLastMintBlock st with
    | some lastBlock => lastBlock.blockNumber + 1
    | none => 1
  let blockReward : Dec := 1000
  match CreateMintBlock st nextBlockNumber blockReward with
  | .error e => .error e
  | .ok (st1, block) =>
    match CalculateWeights st1 block.id snapFails insertFails with
    | .error _ => .ok (st1, block)
    | .ok st2 => .ok (st2, block)

/-! ## Concrete fixture states for the distribution properties -/

/-- The block of the conservation counterexample: total reward 1000 (the
fixed per-block reward of `CreateNewBlock`). -/
def c1Block : MintBlock :=
  { id := 1, blockNumber := 1, totalReward := 1000, distributed := false }

/-- A weight-1 snapshot for the conservation counterexample. -/
def c1Snap (i : ℕ) : WeightSnapshot :=
  { userID := i, blockID := 1, transactionWeight := 1, lpWeight := 0, burnWeight := 0 }

/-- Six participants of equal weight sharing a 1000-token pool. -/
def c1State : DBState :=
  { users := [], combatPowers := [], blocks := [c1Block],
    snapshots := [c1Snap 1, c1Snap 2, c1Snap 3, c1Snap 4, c1Snap 5, c1Snap 6],
    rewards := [], balances := [], tokens := [], userNodes := [],
    canCache := none, nextID := 2 }

/-- The database after distributing `c1Block`. -/
def c1Result : DBState :=
  match DistributeRewards c1State 1 [] with
  | .ok st => st
  | .error _ => c1State

/-- A one-snapshot state instantiating the conservation bound. -/
def c1WitState : DBState :=
  { users := [], combatPowers := [], blocks := [c1Block],
    snapshots := [c1Snap 1], rewards := [], balances := [], tokens := [],
    userNodes := [], canCache := none, nextID := 2 }

/-- A block with a single all-zero-weight snapshot. -/
def c6State : DBState :=
  { users := [], combatPowers := [], blocks := [c1Block],
    snapshots := [{ userID := 1, blockID := 1, transactionWeight := 0,
                    lpWeight := 0, burnWeight := 0 }],
    rewards := [], balances := [], tokens := [], userNodes := [],
    canCache := none, nextID := 2 }

/-- The already-distributed block of the C2 counterexample. -/
def c2Block : MintBlock :=
  { id := 1, blockNumber := 1, totalReward := 1000, distributed := true }

/-- An already-distributed block with one weight-1 snapshot and the reward
entry its first distribution created. -/
def c2State : DBState :=
  { users := [], combatPowers := [],
    blocks := [c2Block],
    snapshots := [c1Snap 1],
    rewards := [{ id := 10, userID := 1, blockID := 1, amount := 1000,
                  weightValue := 1, claimed := false }],
    balances := [], tokens := [], userNodes := [], canCache := none, nextID := 11 }

/-- The database after re-distributing the already-distributed block. -/
def c2Result : DBState :=
  match DistributeRewards c2State 1 [] with
  | .ok st => st
  | .error _ => c2State

/-- The snapshot row the loop of `CalculateWeights` writes for user `u`:
weights are read from the balance and combat-power tables, which the loop
never modifies. -/
def snapRow (st : DBState) (blockID : ℕ) (u : GUser) : WeightSnapshot :=
  { userID := u.id, blockID := blockID,
    transactionWeight := GetUserBalanceBySymbol st u.id "CAN",
    lpWeight := match GetCombatPower st u.id with | none => 0 | some cp => cp.lpWeight,
    burnWeight := match GetCombatPower st u.id with | none => 0 | some cp => cp.burnPower }

/-- An all-zero-weight snapshot row for one participant and block. -/
def zeroSnap (uid bid : ℕ) : WeightSnapshot :=
  { userID := uid, blockID := bid, transactionWeight := 0, lpWeight := 0, burnWeight := 0 }

/-- Two participants: user 1 has no balances and no combat power (all
weights zero), user 2 holds 5 CAN. -/
def c5State : DBState :=
  { users := [{ id := 1, parentID := none, invitedBy := none },
              { id := 2, parentID := none, invitedBy := none }],
    combatPowers := [], blocks := [c1Block], snapshots := [], rewards := [],
    balances := [{ userID := 2, tokenID := 7, balance := 5 }],
    tokens := [{ id := 7, symbol := "CAN" }], userNodes := [],
    canCache := none, nextID := 2 }

/-- The database after snapshotting and distributing the block. -/
def c5Result : DBState :=
  match CalculateWeights c5State 1 [] [] with
  | .ok st => st
  | .error _ => c5State

/-! ## States and helper notions for the claim-path properties -/

/-- A requested reward id the claim loop must skip: every matching row is
foreign-owned or already claimed. -/
def rewardDead (st : DBState) (uid rid : ℕ) : Prop :=
  ∀ r ∈ st.rewards, r.id = rid → r.userID ≠ uid ∨ r.claimed = true

/-- Claim-path fixture: user 1 owns the unclaimed 50-token reward 10,
reward 11 belongs to user 2; user 1 has a CAN balance row; the CAN token
id 7 is already cached. -/
def c3State : DBState :=
  { users := [], combatPowers := [], blocks := [], snapshots := [],
    rewards := [{ id := 10, userID := 1, blockID := 1, amount := 50,
                  weightValue := 1, claimed := false },
                { id := 11, userID := 2, blockID := 1, amount := 7,
                  weightValue := 1, claimed := false }],
    balances := [{ userID := 1, tokenID := 7, balance := 3 }],
    tokens := [{ id := 7, symbol := "CAN" }], userNodes := [],
    canCache := some 7, nextID := 12 }

/-- Outcome of claiming reward 10 in `c3State` while the balance-credit
update fails (`creditFails = [10]`). -/
def c4Result : DBState × Dec :=
  match ClaimRewards c3State 1 [10] [] [10] with
  | .ok p => p
  | .error e => (e.2, -1)

/-- A store holding an unclaimed reward but no token with symbol CAN and
an empty token-id cache. -/
def c10State : DBState :=
  { users := [], combatPowers := [], blocks := [], snapshots := [],
    rewards := [{ id := 10, userID := 1, blockID := 1, amount := 50,
                  weightValue := 1, claimed := false }],
    balances := [], tokens := [], userNodes := [],
    canCache := none, nextID := 11 }

/-- The store `mustGetCANTokenID`'s panic leaves behind when claiming
reward 10 in `c10State`: the claimed flag is already set. -/
def c10Panic : DBState :=
  { c10State with
    rewards := [{ id := 10, userID := 1, blockID := 1, amount := 50,
                  weightValue := 1, claimed := true }] }

/-- `c3State` with an empty token-id cache (the CAN token row exists). -/
def c10WitState : DBState := { c3State with canCache := none }

/-- A corrupted referral graph: users 1 and 2 are each other's parent
(`parent_id` cycle); user 3, invited by 1, has personal power 5. -/
def c7Users : List GUser :=
  [{ id := 1, parentID := some 2, invitedBy := none },
   { id := 2, parentID := some 1, invitedBy := none },
   { id := 3, parentID := some 1, invitedBy := some 1 }]

def c7State : DBState :=
  { users := c7Users,
    combatPowers := [{ userID := 3, personalPower := 5, networkPower := 0,
                       lpWeight := 0, burnPower := 0 }],
    blocks := [], snapshots := [], rewards := [], balances := [], tokens := [],
    userNodes := [], canCache := none, nextID := 4 }

/-- The upward walk from user 3's inviter in `c7State` never stops:
no fuel bound suffices. -/
def c7RunsForever : Prop :=
  ∀ fuel : ℕ, updateAncestorsTeamPower c7State 3 1 fuel = none

/-- A store with one distributed block (number 5) and one participant,
for exercising block allocation. -/
def c9WitState : DBState :=
  { users := [{ id := 5, parentID := none, invitedBy := none }],
    combatPowers := [],
    blocks := [{ id := 1, blockNumber := 5, totalReward := 1000, distributed := true }],
    snapshots := [], rewards := [], balances := [], tokens := [],
    userNodes := [], canCache := none, nextID := 2 }

/-- Referral tree for team-power recomputation: user 2 is invited by 1,
user 3 hangs under 2 via `parent_id` (an indirect, not direct, referral
of 1); personal powers 10 and 5. -/
def c8WitState : DBState :=
  { users := [{ id := 1, parentID := none, invitedBy := none },
              { id := 2, parentID := none, invitedBy := some 1 },
              { id := 3, parentID := some 2, invitedBy := none }],
    combatPowers := [{ userID := 2, personalPower := 10, networkPower := 0,
                       lpWeight := 0, burnPower := 0 },
                     { userID := 3, personalPower := 5, networkPower := 0,
                       lpWeight := 0, burnPower := 0 }],
    blocks := [], snapshots := [], rewards := [], balances := [], tokens := [],
    userNodes := [], canCache := none, nextID := 4 }

/-- An acyclic referral chain 3 → 2 → 1 (root), user 3 with power 5. -/
def c7WitState : DBState :=
  { users := [{ id := 1, parentID := none, invitedBy := none },
              { id := 2, parentID := some 1, invitedBy := none },
              { id := 3, parentID := some 2, invitedBy := some 2 }],
    combatPowers := [{ userID := 3, personalPower := 5, networkPower := 0,
                       lpWeight := 0, burnPower := 0 }],
    blocks := [], snapshots := [], rewards := [], balances := [], tokens := [],
    userNodes := [], canCache := none, nextID := 4 }

/-! ## Decimal rounding bounds -/

theorem decScale_pos : (0 : ℚ) < decScale := by norm_num [decScale]

theorem roundHalfAway_sub_abs_le (q : ℚ) : |(roundHalfAway q : ℚ) - q| ≤ 1 / 2 := by
  rw [abs_sub_le_iff]
  unfold roundHalfAway
  split
  · constructor
    · linarith [Int.floor_le (q + 1 / 2)]
    · linarith [Int.sub_one_lt_floor (q + 1 / 2)]
  · push_cast
    constructor
    · linarith [Int.sub_one_lt_floor (-q + 1 / 2)]
    · linarith [Int.floor_le (-q + 1 / 2)]

theorem decDiv_sub_abs_le (a b : ℚ) : |decDiv a b - a / b| ≤ 1 / (2 * decScale) := by
  have hσ := decScale_pos
  have h := roundHalfAway_sub_abs_le (a / b * decScale)
  have : decDiv a b - a / b = ((roundHalfAway (a / b * decScale) : ℚ) - a / b * decScale) / decScale := by
    field_simp [decDiv]
    ring
  rw [this, abs_div, abs_of_pos hσ, div_le_div_iff₀ hσ (by positivity)]
  calc |(roundHalfAway (a / b * decScale) : ℚ) - a / b * decScale| * (2 * decScale)
      ≤ (1 / 2) * (2 * decScale) := by
        exact mul_le_mul_of_nonneg_right h (by positivity)
    _ = 1 * decScale := by ring

theorem sum_map_sub_abs_le {α : Type} (f g : α → ℚ) (c : ℚ) :
    ∀ l : List α, (∀ x ∈ l, |f x - g x| ≤ c) →
      |(l.map f).sum - (l.map g).sum| ≤ l.length * c
  | [], _ => by simp
  | x :: l, h => by
    have h1 := h x (List.mem_cons_self x l)
    have h2 := sum_map_sub_abs_le f g c l (fun y hy => h y (List.mem_cons_of_mem x hy))
    simp only [List.map_cons, List.sum_cons, List.length_cons]
    have step : |f x + (l.map f).sum - (g x + (l.map g).sum)|
        ≤ |f x - g x| + |(l.map f).sum - (l.map g).sum| := by
      have := abs_add (f x - g x) ((l.map f).sum - (l.map g).sum)
      have e : f x - g x + ((l.map f).sum - (l.map g).sum)
          = f x + (l.map f).sum - (g x + (l.map g).sum) := by ring
      rwa [e] at this
    calc |f x + (l.map f).sum - (g x + (l.map g).sum)|
        ≤ |f x - g x| + |(l.map f).sum - (l.map g).sum| := step
      _ ≤ c + l.length * c := add_le_add h1 h2
      _ = (l.length + 1 : ℕ) * c := by push_cast; ring

/-! ## C1: conservation of the reward pool -/

theorem mkRewards_amount_sum (T : Dec) (bid : ℕ) (W : Dec) :
    ∀ (snaps : List WeightSnapshot) (nid : ℕ),
      ((mkRewards T bid W [] snaps nid).map (fun r => r.amount)).sum
        = (snaps.map (fun s =>
            if snapTotalWeight s = 0 then 0
            else decDiv (T * snapTotalWeight s) W)).sum
  | [], _ => by simp [mkRewards]
  | s :: rest, nid => by
    by_cases hw : snapTotalWeight s = 0
    · simp [mkRewards, hw, mkRewards_amount_sum T bid W rest nid]
    · simp [mkRewards, hw, mkRewards_amount_sum T bid W rest (nid + 1)]

theorem mkRewards_blockID (T : Dec) (bid : ℕ) (W : Dec) (fails : List ℕ) :
    ∀ (snaps : List WeightSnapshot) (nid : ℕ),
      ∀ r ∈ mkRewards T bid W fails snaps nid, r.blockID = bid
  | [], _ => by simp [mkRewards]
  | s :: rest, nid => by
    intro r hr
    by_cases hw : snapTotalWeight s = 0
    · simp only [mkRewards, hw, if_pos rfl] at hr
      exact mkRewards_blockID T bid W fails rest nid r hr
    · by_cases hf : s.userID ∈ fails
      · simp only [mkRewards, if_neg hw, if_pos hf] at hr
        exact mkRewards_blockID T bid W fails rest nid r hr
      · simp only [mkRewards, if_neg hw, if_neg hf, List.mem_cons] at hr
        rcases hr with h | h
        · rw [h]
        · exact mkRewards_blockID T bid W fails rest (nid + 1) r h

theorem rewardSumForBlock_update (st : DBState) (b b' : ℕ) :
    rewardSumForBlock (UpdateBlockDistributed st b) b' = rewardSumForBlock st b' := rfl

theorem rewardSumForBlock_append (st : DBState) (l : List BlockReward) (bid : ℕ) (n : ℕ)
    (hl : ∀ r ∈ l, r.blockID = bid) :
    rewardSumForBlock { st with rewards := st.rewards ++ l, nextID := n } bid
      = rewardSumForBlock st bid + (l.map (fun r => r.amount)).sum := by
  unfold rewardSumForBlock
  rw [show ({ st with rewards := st.rewards ++ l, nextID := n } : DBState).rewards
      = st.rewards ++ l from rfl]
  rw [List.filter_append, List.map_append, List.sum_append]
  have : l.filter (fun r => r.blockID == bid) = l :=
    List.filter_eq_self.mpr (fun r hr => by simp [hl r hr])
  rw [this]

theorem sum_map_share (T W : Dec) (hW : W ≠ 0) (snaps : List WeightSnapshot) :
    (snaps.map (fun s => T * snapTotalWeight s / W)).sum
      = T * (snaps.map snapTotalWeight).sum / W := by
  induction snaps with
  | nil => simp
  | cons s rest ih =>
    simp only [List.map_cons, List.sum_cons, ih]
    field_simp
    ring

/-- C1 (amended): for a block whose snapshot weights sum to a nonzero `W`,
`DistributeRewards` succeeds and the total of the reward entries it adds
for the block differs from the block's `totalReward` by at most half a
division unit (`10^-16 / 2`) per snapshot; each share is the exact
proportional share rounded half away from zero at 16 decimal places, not
rounded down, so the sum can also exceed `totalReward`. -/
theorem distributeRewards_conservation (st : DBState) (blockID : ℕ) (block : MintBlock)
    (hb : GetBlockByID st blockID = some block)
    (hW : ((GetWeightSnapshotsByBlock st blockID).map snapTotalWeight).sum ≠ 0) :
    ∃ st', DistributeRewards st blockID [] = .ok st' ∧
      |rewardSumForBlock st' blockID - rewardSumForBlock st blockID - block.totalReward|
        ≤ (GetWeightSnapshotsByBlock st blockID).length * (1 / (2 * decScale)) := by
  set snaps := GetWeightSnapshotsByBlock st blockID with hsnaps
  set W := (snaps.map snapTotalWeight).sum with hWdef
  set created := mkRewards block.totalReward blockID W [] snaps st.nextID with hcreated
  refine ⟨UpdateBlockDistributed
      { st with rewards := st.rewards ++ created, nextID := st.nextID + created.length }
      blockID, ?_, ?_⟩
  · unfold DistributeRewards
    rw [hb]
    simp only [← hsnaps, ← hWdef, if_neg hW, ← hcreated]
  · rw [rewardSumForBlock_update,
      rewardSumForBlock_append st created blockID _
        (mkRewards_blockID block.totalReward blockID W [] snaps st.nextID)]
    have hsum : (created.map (fun r => r.amount)).sum
        = (snaps.map (fun s => if snapTotalWeight s = 0 then 0
            else decDiv (block.totalReward * snapTotalWeight s) W)).sum :=
      mkRewards_amount_sum block.totalReward blockID W snaps st.nextID
    have hT : (snaps.map (fun s => block.totalReward * snapTotalWeight s / W)).sum
        = block.totalReward := by
      rw [sum_map_share block.totalReward W hW snaps, ← hWdef,
        mul_div_assoc, div_self hW, mul_one]
    have hbound := sum_map_sub_abs_le
      (fun s => if snapTotalWeight s = 0 then 0
        else decDiv (block.totalReward * snapTotalWeight s) W)
      (fun s => block.totalReward * snapTotalWeight s / W)
      (1 / (2 * decScale)) snaps ?_
    · calc |rewardSumForBlock st blockID + (created.map (fun r => r.amount)).sum
            - rewardSumForBlock st blockID - block.totalReward|
          = |(snaps.map (fun s => if snapTotalWeight s = 0 then 0
              else decDiv (block.totalReward * snapTotalWeight s) W)).sum
            - (snaps.map (fun s => block.totalReward * snapTotalWeight s / W)).sum| := by
            rw [hsum, hT]; ring_nf
        _ ≤ snaps.length * (1 / (2 * decScale)) := hbound
    · intro s _
      by_cases hw : snapTotalWeight s = 0
      · have hnn : (0 : ℚ) ≤ 1 / (2 * decScale) := by
          have := decScale_pos
          positivity
        simp [hw, hnn, le_of_lt decScale_pos]
      · simp only [if_neg hw]
        exact decDiv_sub_abs_le (block.totalReward * snapTotalWeight s) W

/-- C1 is violated by the code: distributing a 1000-token block over six
equal-weight participants creates entries of `1000/6` each rounded half
away from zero (`166.6666666666666667`), whose sum
`1000.0000000000000002` strictly exceeds the block's total reward, so
`sum ≤ totalReward` fails and the shares are not rounded down. -/
theorem distributeRewards_conservation_violated :
    c1Block.totalReward = 1000 ∧
    (GetBlockByID c1Result 1).map MintBlock.distributed = some true ∧
    1000 < rewardSumForBlock c1Result 1 := by
  refine ⟨rfl, ?_, ?_⟩ <;>
    norm_num [c1Result, c1State, c1Block, c1Snap, DistributeRewards, GetBlockByID,
      GetWeightSnapshotsByBlock, snapTotalWeight, mkRewards, UpdateBlockDistributed,
      rewardSumForBlock, decDiv, roundHalfAway, decScale, List.find?, List.filter]

theorem distributeRewards_conservation_witness :
    GetBlockByID c1WitState 1 = some c1Block ∧
    ((GetWeightSnapshotsByBlock c1WitState 1).map snapTotalWeight).sum ≠ 0 ∧
    ∃ st', DistributeRewards c1WitState 1 [] = .ok st' ∧
      |rewardSumForBlock st' 1 - rewardSumForBlock c1WitState 1 - c1Block.totalReward|
        ≤ (GetWeightSnapshotsByBlock c1WitState 1).length * (1 / (2 * decScale)) := by
  have h1 : GetBlockByID c1WitState 1 = some c1Block := rfl
  have h2 : ((GetWeightSnapshotsByBlock c1WitState 1).map snapTotalWeight).sum ≠ 0 := by
    norm_num [c1WitState, GetWeightSnapshotsByBlock, c1Snap, snapTotalWeight, List.filter]
  exact ⟨h1, h2, distributeRewards_conservation c1WitState 1 c1Block h1 h2⟩

/-! ## C6: zero-total-weight block -/

/-- `find?` commutes with mapping a predicate-preserving row update over a
table — the shape of every keyed SQL `UPDATE` in the model. -/
theorem find?_map_comm {α : Type} (p : α → Bool) (f : α → α) (hf : ∀ a, p (f a) = p a) :
    ∀ l : List α, (l.map f).find? p = (l.find? p).map f
  | [] => rfl
  | x :: l => by
    by_cases hx : p x = true
    · have h1 : p (f x) = true := by rw [hf]; exact hx
      rw [List.map_cons, List.find?_cons_of_pos _ h1, List.find?_cons_of_pos _ hx]
      rfl
    · have h1 : ¬p (f x) = true := by rw [hf]; exact hx
      rw [List.map_cons, List.find?_cons_of_neg _ h1, List.find?_cons_of_neg _ hx]
      exact find?_map_comm p f hf l

theorem getBlockByID_update {st : DBState} {blockID : ℕ} {block : MintBlock}
    (hb : GetBlockByID st blockID = some block) :
    GetBlockByID (UpdateBlockDistributed st blockID) blockID
      = some { block with distributed := true } := by
  unfold GetBlockByID at hb ⊢
  rw [show (UpdateBlockDistributed st blockID).blocks
      = st.blocks.map (fun b => if b.id == blockID then { b with distributed := true } else b)
      from rfl]
  rw [find?_map_comm _ _ (fun b => by by_cases hb' : (b.id == blockID) = true <;> simp [hb']),
    hb]
  have hp : block.id = blockID := by simpa using List.find?_some hb
  simp [hp]

/-- C6: if the snapshot weights of a block sum to zero, `DistributeRewards`
creates no reward entries, marks the block distributed, and reports
success (not an error): the reward pool for the interval is forfeited. -/
theorem distributeRewards_zero_total_weight (st : DBState) (blockID : ℕ) (block : MintBlock)
    (fails : List ℕ) (hb : GetBlockByID st blockID = some block)
    (hW : ((GetWeightSnapshotsByBlock st blockID).map snapTotalWeight).sum = 0) :
    DistributeRewards st blockID fails = .ok (UpdateBlockDistributed st blockID) ∧
    (UpdateBlockDistributed st blockID).rewards = st.rewards ∧
    GetBlockByID (UpdateBlockDistributed st blockID) blockID
      = some { block with distributed := true } := by
  refine ⟨?_, rfl, getBlockByID_update hb⟩
  unfold DistributeRewards
  rw [hb]
  simp only [if_pos hW]

theorem distributeRewards_zero_total_weight_witness :
    GetBlockByID c6State 1 = some c1Block ∧
    ((GetWeightSnapshotsByBlock c6State 1).map snapTotalWeight).sum = 0 ∧
    (DistributeRewards c6State 1 [] = .ok (UpdateBlockDistributed c6State 1) ∧
      (UpdateBlockDistributed c6State 1).rewards = c6State.rewards ∧
      GetBlockByID (UpdateBlockDistributed c6State 1) 1
        = some { c1Block with distributed := true }) := by
  have h1 : GetBlockByID c6State 1 = some c1Block := rfl
  have h2 : ((GetWeightSnapshotsByBlock c6State 1).map snapTotalWeight).sum = 0 := by
    norm_num [c6State, GetWeightSnapshotsByBlock, snapTotalWeight, List.filter]
  exact ⟨h1, h2, distributeRewards_zero_total_weight c6State 1 c1Block [] h1 h2⟩

/-! ## C2: no guard against double distribution -/

theorem mkRewards_length (T : Dec) (bid : ℕ) (W : Dec) :
    ∀ (snaps : List WeightSnapshot) (nid : ℕ),
      (mkRewards T bid W [] snaps nid).length
        = (snaps.filter (fun s => decide (snapTotalWeight s ≠ 0))).length
  | [], _ => by simp [mkRewards]
  | s :: rest, nid => by
    by_cases hw : snapTotalWeight s = 0
    · simp [mkRewards, hw, mkRewards_length T bid W rest nid, List.filter_cons]
    · simp [mkRewards, hw, mkRewards_length T bid W rest (nid + 1), List.filter_cons]

theorem rewardCountForBlock_update (st : DBState) (b b' : ℕ) :
    rewardCountForBlock (UpdateBlockDistributed st b) b' = rewardCountForBlock st b' := rfl

theorem rewardCountForBlock_append (st : DBState) (l : List BlockReward) (bid : ℕ) (n : ℕ)
    (hl : ∀ r ∈ l, r.blockID = bid) :
    rewardCountForBlock { st with rewards := st.rewards ++ l, nextID := n } bid
      = rewardCountForBlock st bid + l.length := by
  unfold rewardCountForBlock
  rw [show ({ st with rewards := st.rewards ++ l, nextID := n } : DBState).rewards
      = st.rewards ++ l from rfl]
  rw [List.filter_append, List.length_append]
  have : l.filter (fun r => r.blockID == bid) = l :=
    List.filter_eq_self.mpr (fun r hr => by simp [hl r hr])
  rw [this]

/-- C2 (amended): `DistributeRewards` never inspects the `distributed`
flag and raises no AlreadyDistributedError: called on a block that is
already marked distributed it simply runs the distribution again,
appending one fresh reward entry per nonzero-weight snapshot — nothing
prevents double-minting at this layer (the schema has no uniqueness
constraint on `block_rewards (user_id, block_id)` either). -/
theorem distributeRewards_ignores_distributed_flag (st : DBState) (blockID : ℕ)
    (block : MintBlock) (hb : GetBlockByID st blockID = some block)
    (_hdist : block.distributed = true)
    (hW : ((GetWeightSnapshotsByBlock st blockID).map snapTotalWeight).sum ≠ 0) :
    ∃ st', DistributeRewards st blockID [] = .ok st' ∧
      rewardCountForBlock st' blockID = rewardCountForBlock st blockID +
        ((GetWeightSnapshotsByBlock st blockID).filter
          (fun s => decide (snapTotalWeight s ≠ 0))).length := by
  set snaps := GetWeightSnapshotsByBlock st blockID with hsnaps
  set W := (snaps.map snapTotalWeight).sum with hWdef
  set created := mkRewards block.totalReward blockID W [] snaps st.nextID with hcreated
  refine ⟨UpdateBlockDistributed
      { st with rewards := st.rewards ++ created, nextID := st.nextID + created.length }
      blockID, ?_, ?_⟩
  · unfold DistributeRewards
    rw [hb]
    simp only [← hsnaps, ← hWdef, if_neg hW, ← hcreated]
  · rw [rewardCountForBlock_update,
      rewardCountForBlock_append st created blockID _
        (mkRewards_blockID block.totalReward blockID W [] snaps st.nextID),
      hcreated, mkRewards_length]

/-- C2 is violated by the code: calling `DistributeRewards` on the
already-distributed block succeeds (no AlreadyDistributedError) and
appends a second reward entry for the same participant and block. -/
theorem distributeRewards_double_distribution :
    (GetBlockByID c2State 1).map MintBlock.distributed = some true ∧
    (DistributeRewards c2State 1 []).isOk = true ∧
    rewardCountForBlock c2State 1 = 1 ∧
    rewardCountForBlock c2Result 1 = 2 := by
  refine ⟨rfl, ?_, rfl, ?_⟩ <;>
    norm_num [c2Result, c2State, c2Block, c1Snap, DistributeRewards, GetBlockByID,
      GetWeightSnapshotsByBlock, snapTotalWeight, mkRewards, UpdateBlockDistributed,
      rewardCountForBlock, Except.isOk, Except.toBool, List.find?, List.filter]

/-- A concrete instance of `distributeRewards_ignores_distributed_flag`. -/
theorem distributeRewards_ignores_distributed_flag_witness :
    GetBlockByID c2State 1 = some c2Block ∧
    c2Block.distributed = true ∧
    ((GetWeightSnapshotsByBlock c2State 1).map snapTotalWeight).sum ≠ 0 ∧
    ∃ st', DistributeRewards c2State 1 [] = .ok st' ∧
      rewardCountForBlock st' 1 = rewardCountForBlock c2State 1 +
        ((GetWeightSnapshotsByBlock c2State 1).filter
          (fun s => decide (snapTotalWeight s ≠ 0))).length := by
  have h1 : GetBlockByID c2State 1 = some c2Block := rfl
  have h2 : ((GetWeightSnapshotsByBlock c2State 1).map snapTotalWeight).sum ≠ 0 := by
    norm_num [c2State, GetWeightSnapshotsByBlock, c1Snap, snapTotalWeight, List.filter]
  exact ⟨h1, rfl, h2, distributeRewards_ignores_distributed_flag c2State 1 c2Block h1 rfl h2⟩

/-! ## C5: zero-weight participant -/

theorem snapshotUser_eq (blockID : ℕ) (sf : List ℕ) (st : DBState) (u : GUser) :
    snapshotUser blockID sf st u =
      if u.id ∈ sf then st
      else { st with snapshots := st.snapshots ++ [snapRow st blockID u] } := rfl

theorem foldl_snapshotUser (blockID : ℕ) (sf : List ℕ) :
    ∀ (l : List GUser) (st : DBState),
      l.foldl (snapshotUser blockID sf) st
        = { st with snapshots := st.snapshots ++
            ((l.filter (fun u => !decide (u.id ∈ sf))).map (snapRow st blockID)) }
  | [], st => by simp
  | u :: l, st => by
    rw [List.foldl_cons, snapshotUser_eq]
    by_cases hu : u.id ∈ sf
    · rw [if_pos hu, foldl_snapshotUser blockID sf l st]
      simp [List.filter_cons, hu]
    · rw [if_neg hu,
        foldl_snapshotUser blockID sf l { st with snapshots := st.snapshots ++ [snapRow st blockID u] }]
      have hrow : snapRow { st with snapshots := st.snapshots ++ [snapRow st blockID u] } blockID
          = snapRow st blockID := rfl
      rw [hrow]
      simp [List.filter_cons, hu, List.append_assoc]

theorem mkRewards_mem (T : Dec) (bid : ℕ) (W : Dec) (fails : List ℕ) :
    ∀ (snaps : List WeightSnapshot) (nid : ℕ), ∀ r ∈ mkRewards T bid W fails snaps nid,
      ∃ s ∈ snaps, r.userID = s.userID ∧ snapTotalWeight s ≠ 0
  | [], _ => by simp [mkRewards]
  | s :: rest, nid => by
    intro r hr
    by_cases hw : snapTotalWeight s = 0
    · simp only [mkRewards, hw, if_pos rfl] at hr
      obtain ⟨s', hs', h⟩ := mkRewards_mem T bid W fails rest nid r hr
      exact ⟨s', List.mem_cons_of_mem s hs', h⟩
    · by_cases hf : s.userID ∈ fails
      · simp only [mkRewards, if_neg hw, if_pos hf] at hr
        obtain ⟨s', hs', h⟩ := mkRewards_mem T bid W fails rest nid r hr
        exact ⟨s', List.mem_cons_of_mem s hs', h⟩
      · simp only [mkRewards, if_neg hw, if_neg hf, List.mem_cons] at hr
        rcases hr with h | h
        · exact ⟨s, List.mem_cons_self s rest, by rw [h], hw⟩
        · obtain ⟨s', hs', h'⟩ := mkRewards_mem T bid W fails rest (nid + 1) r h
          exact ⟨s', List.mem_cons_of_mem s hs', h'⟩

/-- Unfolding of `DistributeRewards` once the block lookup succeeds. -/
theorem DistributeRewards_eq (st : DBState) (blockID : ℕ) (block : MintBlock)
    (fails : List ℕ) (hb : GetBlockByID st blockID = some block) :
    DistributeRewards st blockID fails =
      if ((GetWeightSnapshotsByBlock st blockID).map snapTotalWeight).sum = 0 then
        .ok (UpdateBlockDistributed st blockID)
      else
        .ok (UpdateBlockDistributed
          { st with
            rewards := st.rewards ++ mkRewards block.totalReward blockID
              ((GetWeightSnapshotsByBlock st blockID).map snapTotalWeight).sum fails
              (GetWeightSnapshotsByBlock st blockID) st.nextID,
            nextID := st.nextID + (mkRewards block.totalReward blockID
              ((GetWeightSnapshotsByBlock st blockID).map snapTotalWeight).sum fails
              (GetWeightSnapshotsByBlock st blockID) st.nextID).length }
          blockID) := by
  unfold DistributeRewards
  rw [hb]

/-- C5 (amended): a participant whose snapshotted weights are all zero
still receives a `WeightSnapshot` row, but `DistributeRewards` skips
zero-weight snapshots, so no `RewardEntry` at all is created for that
participant — the reward is zero by absence of an entry, not an entry of
amount 0, and there is nothing to claim. -/
theorem calculateWeights_zero_weight_participant (st : DBState) (blockID : ℕ)
    (block : MintBlock) (u : GUser)
    (hb : GetBlockByID st blockID = some block)
    (hu : u ∈ st.users)
    (hrow : snapRow st blockID u = zeroSnap u.id blockID)
    (hsnap : ∀ s ∈ st.snapshots, s.blockID ≠ blockID)
    (hrew : ∀ r ∈ st.rewards, ¬(r.userID = u.id ∧ r.blockID = blockID)) :
    ∃ st', CalculateWeights st blockID [] [] = .ok st' ∧
      zeroSnap u.id blockID ∈ st'.snapshots ∧
      st'.rewards.filter (fun r => r.userID == u.id && r.blockID == blockID) = [] := by
  unfold CalculateWeights
  rw [foldl_snapshotUser]
  set rows := ((st.users.filter (fun u => !decide (u.id ∈ ([] : List ℕ)))).map
    (snapRow st blockID)) with hrows
  have hrows' : rows = st.users.map (snapRow st blockID) := by
    rw [hrows]
    congr 1
    exact List.filter_eq_self.mpr (fun x _ => by simp)
  set stMid : DBState := { st with snapshots := st.snapshots ++ rows } with hstMid
  have hmem : zeroSnap u.id blockID ∈ stMid.snapshots := by
    rw [hstMid]
    refine List.mem_append_right _ ?_
    rw [hrows']
    rw [← hrow]
    exact List.mem_map_of_mem (snapRow st blockID) hu
  have hbMid : GetBlockByID stMid blockID = some block := hb
  have hsnapsMid : GetWeightSnapshotsByBlock stMid blockID
      = st.users.map (snapRow st blockID) := by
    unfold GetWeightSnapshotsByBlock
    rw [show stMid.snapshots = st.snapshots ++ rows from rfl, List.filter_append]
    have h1 : st.snapshots.filter (fun s => s.blockID == blockID) = [] := by
      rw [List.filter_eq_nil_iff]
      intro s hs
      simpa using hsnap s hs
    have h2 : rows.filter (fun s => s.blockID == blockID) = rows :=
      List.filter_eq_self.mpr (by
        intro s hs
        rw [hrows'] at hs
        obtain ⟨u', _, hu'⟩ := List.mem_map.mp hs
        rw [← hu']
        simp [snapRow])
    rw [h1, h2, List.nil_append, hrows']
  -- no snapshot of the block carries `u.id` with nonzero weight
  have hzero : ∀ s ∈ GetWeightSnapshotsByBlock stMid blockID,
      s.userID = u.id → snapTotalWeight s = 0 := by
    intro s hs hsu
    rw [hsnapsMid] at hs
    obtain ⟨u', hu', hs'⟩ := List.mem_map.mp hs
    have hid : u'.id = u.id := by rw [← hs'] at hsu; exact hsu
    have : snapRow st blockID u' = snapRow st blockID u := by
      unfold snapRow
      rw [hid]
    rw [← hs', this, hrow]
    simp [snapTotalWeight, zeroSnap]
  show ∃ st', DistributeRewards stMid blockID [] = .ok st' ∧
      zeroSnap u.id blockID ∈ st'.snapshots ∧
      st'.rewards.filter (fun r => r.userID == u.id && r.blockID == blockID) = []
  rw [DistributeRewards_eq stMid blockID block [] hbMid]
  by_cases hW : ((GetWeightSnapshotsByBlock stMid blockID).map snapTotalWeight).sum = 0
  · rw [if_pos hW]
    refine ⟨_, rfl, hmem, ?_⟩
    rw [show (UpdateBlockDistributed stMid blockID).rewards = st.rewards from rfl,
      List.filter_eq_nil_iff]
    intro r hr
    simpa using hrew r hr
  · rw [if_neg hW]
    refine ⟨_, rfl, hmem, ?_⟩
    rw [List.filter_eq_nil_iff]
    intro r hr
    have hr' : r ∈ st.rewards ++ mkRewards block.totalReward blockID
        ((GetWeightSnapshotsByBlock stMid blockID).map snapTotalWeight).sum []
        (GetWeightSnapshotsByBlock stMid blockID) st.nextID := hr
    rcases List.mem_append.mp hr' with hold | hnew
    · simpa using hrew r hold
    · obtain ⟨s, hs, hsu, hsw⟩ := mkRewards_mem _ _ _ _ _ _ r hnew
      simp only [Bool.not_eq_true, Bool.and_eq_true, beq_iff_eq, not_and]
      intro hru _
      exact hsw (hzero s hs (by rw [← hsu, hru]))

/-- C5 is violated by the code: the zero-weight participant gets a
snapshot row, and the block's total weight is nonzero, but no
`RewardEntry` of amount 0 (indeed no entry at all) is created for them —
`DistributeRewards` skips zero-weight snapshots. -/
theorem zero_weight_participant_gets_no_entry :
    zeroSnap 1 1 ∈ c5Result.snapshots ∧
    ((GetWeightSnapshotsByBlock c5Result 1).map snapTotalWeight).sum ≠ 0 ∧
    c5Result.rewards.filter (fun r => r.userID == 1) = [] ∧
    c5Result.rewards ≠ [] := by
  refine ⟨?_, ?_, ?_, ?_⟩ <;>
    norm_num [c5Result, c5State, c1Block, CalculateWeights, snapshotUser,
      CreateWeightSnapshot, GetUserBalanceBySymbol, GetTokenBySymbol, GetCombatPower,
      DistributeRewards, GetBlockByID, GetWeightSnapshotsByBlock, snapTotalWeight,
      mkRewards, UpdateBlockDistributed, zeroSnap, decDiv, roundHalfAway, decScale]

theorem calculateWeights_zero_weight_participant_witness :
    GetBlockByID c5State 1 = some c1Block ∧
    ({ id := 1, parentID := none, invitedBy := none } : GUser) ∈ c5State.users ∧
    snapRow c5State 1 { id := 1, parentID := none, invitedBy := none } = zeroSnap 1 1 ∧
    (∃ st', CalculateWeights c5State 1 [] [] = .ok st' ∧
      zeroSnap 1 1 ∈ st'.snapshots ∧
      st'.rewards.filter (fun r => r.userID == 1 && r.blockID == 1) = []) := by
  have h1 : GetBlockByID c5State 1 = some c1Block := rfl
  have h2 : ({ id := 1, parentID := none, invitedBy := none } : GUser) ∈ c5State.users := by
    simp [c5State]
  have h3 : snapRow c5State 1 { id := 1, parentID := none, invitedBy := none }
      = zeroSnap 1 1 := by
    norm_num [snapRow, zeroSnap, c5State, GetUserBalanceBySymbol, GetTokenBySymbol,
      GetCombatPower]
  have h4 : ∀ s ∈ c5State.snapshots, s.blockID ≠ 1 := by simp [c5State]
  have h5 : ∀ r ∈ c5State.rewards, ¬(r.userID = 1 ∧ r.blockID = 1) := by simp [c5State]
  exact ⟨h1, h2, h3,
    calculateWeights_zero_weight_participant c5State 1 c1Block _ h1 h2 h3 h4 h5⟩

/-! ## Claim-path helper lemmas -/

theorem map_map_eq_map {α β : Type} (f : α → α) (g : α → β) (h : ∀ a, g (f a) = g a) :
    ∀ l : List α, (l.map f).map g = l.map g
  | [] => rfl
  | x :: xs => by simp only [List.map_cons, h x, map_map_eq_map f g h xs]

theorem map_eq_self_of {α : Type} (f : α → α) :
    ∀ l : List α, (∀ a ∈ l, f a = a) → l.map f = l
  | [], _ => rfl
  | x :: xs, h => by
    rw [List.map_cons, h x (List.mem_cons_self x xs),
      map_eq_self_of f xs (fun a ha => h a (List.mem_cons_of_mem x ha))]

theorem claimReward_rewards_ids (st : DBState) (rid uid : ℕ) :
    (ClaimReward st rid uid).rewards.map (fun r => r.id)
      = st.rewards.map (fun r => r.id) := by
  unfold ClaimReward
  exact map_map_eq_map _ _
    (fun r => by by_cases h : (r.id == rid && r.userID == uid) = true <;> simp [h]) _

theorem addUserBalance_balance_keys (st : DBState) (uid tid : ℕ) (amt : Dec) :
    (AddUserBalance st uid tid amt).balances.map (fun b => (b.userID, b.tokenID))
      = st.balances.map (fun b => (b.userID, b.tokenID)) := by
  unfold AddUserBalance
  exact map_map_eq_map _ _
    (fun b => by by_cases h : (b.userID == uid && b.tokenID == tid) = true <;> simp [h]) _

theorem rewardDead_claimReward {st : DBState} {uid rid' : ℕ} (rid : ℕ)
    (h : rewardDead st uid rid') : rewardDead (ClaimReward st rid uid) uid rid' := by
  intro r' hr' hid
  unfold ClaimReward at hr'
  obtain ⟨r, hr, hfr⟩ := List.mem_map.mp hr'
  by_cases hc : (r.id == rid && r.userID == uid) = true
  · rw [if_pos hc] at hfr
    right
    rw [← hfr]
  · rw [if_neg hc] at hfr
    rw [← hfr] at hid ⊢
    exact h r hr hid

theorem rewardDead_claimReward_self (st : DBState) (rid uid : ℕ) :
    rewardDead (ClaimReward st rid uid) uid rid := by
  intro r' hr' hid
  unfold ClaimReward at hr'
  obtain ⟨r, _, hfr⟩ := List.mem_map.mp hr'
  by_cases hc : (r.id == rid && r.userID == uid) = true
  · rw [if_pos hc] at hfr
    right
    rw [← hfr]
  · rw [if_neg hc] at hfr
    rw [← hfr] at hid ⊢
    left
    intro hu
    rw [← hfr] at hfr
    exact hc (by simp [hid, hu])

theorem find?_nodup_unique {l : List BlockReward} {rid : ℕ} {r r' : BlockReward}
    (hnd : (l.map (fun x => x.id)).Nodup)
    (hfind : l.find? (fun x => x.id == rid) = some r)
    (hr' : r' ∈ l) (hid : r'.id = rid) : r' = r := by
  induction l with
  | nil => simp at hfind
  | cons x xs ih =>
    rw [List.map_cons, List.nodup_cons] at hnd
    by_cases hx : (x.id == rid) = true
    · have hfc : List.find? (fun x => x.id == rid) (x :: xs) = some x :=
        List.find?_cons_of_pos xs hx
      rw [hfc] at hfind
      cases hfind
      rcases List.mem_cons.mp hr' with h | h
      · exact h
      · refine absurd ?_ hnd.1
        rw [show r.id = r'.id from (show r.id = rid by simpa using hx).trans hid.symm]
        exact List.mem_map_of_mem (fun x => x.id) h
    · have hfc : List.find? (fun x => x.id == rid) (x :: xs) =
          List.find? (fun x => x.id == rid) xs :=
        List.find?_cons_of_neg xs hx
      rw [hfc] at hfind
      rcases List.mem_cons.mp hr' with h | h
      · exact absurd (by rw [← h, hid]; simp) hx
      · exact ih hnd.2 hfind h

theorem sumClaimed_list (rid uid : ℕ) (r : BlockReward) :
    ∀ l : List BlockReward,
      (l.map (fun x => x.id)).Nodup →
      l.find? (fun x => x.id == rid) = some r →
      r.userID = uid → r.claimed = false →
      (((l.map (fun x => if x.id == rid && x.userID == uid
          then { x with claimed := true } else x)).filter
        (fun x => x.claimed)).map (fun x => x.amount)).sum
        = ((l.filter (fun x => x.claimed)).map (fun x => x.amount)).sum + r.amount
  | [], _, hfind, _, _ => by simp at hfind
  | x :: xs, hnd, hfind, hown, huncl => by
    rw [List.map_cons, List.nodup_cons] at hnd
    by_cases hx : (x.id == rid) = true
    · have hfc : List.find? (fun x => x.id == rid) (x :: xs) = some x :=
        List.find?_cons_of_pos xs hx
      rw [hfc] at hfind
      cases hfind
      have hmapxs : xs.map (fun x => if x.id == rid && x.userID == uid
          then { x with claimed := true } else x) = xs := by
        refine map_eq_self_of _ xs (fun a ha => ?_)
        have hne : ¬(a.id == rid) = true := by
          intro hc
          exact hnd.1 (by
            rw [show r.id = a.id from by
              rw [show a.id = rid from by simpa using hc]; simpa using hx]
            exact List.mem_map_of_mem (fun x => x.id) ha)
        simp [hne]
      simp only [List.map_cons, hmapxs, List.filter_cons]
      simp [hx, hown, huncl]
      ring
    · have hfc : List.find? (fun x => x.id == rid) (x :: xs) =
          List.find? (fun x => x.id == rid) xs :=
        List.find?_cons_of_neg xs hx
      rw [hfc] at hfind
      have ih := sumClaimed_list rid uid r xs hnd.2 hfind hown huncl
      have hfx : (if (x.id == rid && x.userID == uid) = true
          then ({ x with claimed := true } : BlockReward) else x) = x := by
        simp [hx]
      rw [List.map_cons, hfx, List.filter_cons, List.filter_cons]
      by_cases hcl : x.claimed = true
      · rw [if_pos hcl, if_pos hcl, List.map_cons, List.map_cons, List.sum_cons,
          List.sum_cons, ih]
        ring
      · rw [if_neg hcl, if_neg hcl]
        exact ih

theorem sumClaimed_claimReward {st : DBState} {rid uid : ℕ} {r : BlockReward}
    (hnd : (st.rewards.map (fun x => x.id)).Nodup)
    (hfind : GetBlockReward st rid = some r)
    (hown : r.userID = uid) (huncl : r.claimed = false) :
    sumClaimed (ClaimReward st rid uid) = sumClaimed st + r.amount :=
  sumClaimed_list rid uid r st.rewards hnd hfind hown huncl

theorem getBalance_list (uid tid : ℕ) (amt : Dec) :
    ∀ l : List UserBalance,
      (l.map (fun b => (b.userID, b.tokenID))).Nodup →
      (uid, tid) ∈ l.map (fun b => (b.userID, b.tokenID)) →
      (((l.map (fun b => if b.userID == uid && b.tokenID == tid
          then { b with balance := b.balance + amt } else b)).filter
        (fun b => b.userID == uid && b.tokenID == tid)).map (fun b => b.balance)).sum
        = ((l.filter (fun b => b.userID == uid && b.tokenID == tid)).map
            (fun b => b.balance)).sum + amt
  | [], _, hmem => by simp at hmem
  | b :: bs, hnd, hmem => by
    rw [List.map_cons, List.nodup_cons] at hnd
    by_cases hb : (b.userID == uid && b.tokenID == tid) = true
    · have hkey : b.userID = uid ∧ b.tokenID = tid := by simpa using hb
      have hnomatch : ∀ a ∈ bs, ¬(a.userID == uid && a.tokenID == tid) = true := by
        intro a ha hc
        have hkey' : a.userID = uid ∧ a.tokenID = tid := by simpa using hc
        exact hnd.1 (by
          rw [show (b.userID, b.tokenID) = (a.userID, a.tokenID) from by
            rw [hkey.1, hkey.2, hkey'.1, hkey'.2]]
          exact List.mem_map_of_mem _ ha)
      have hmapbs : bs.map (fun b => if b.userID == uid && b.tokenID == tid
          then { b with balance := b.balance + amt } else b) = bs := by
        refine map_eq_self_of _ bs (fun a ha => ?_)
        simp [hnomatch a ha]
      have hfilterbs : bs.filter (fun b => b.userID == uid && b.tokenID == tid) = [] :=
        List.filter_eq_nil_iff.mpr hnomatch
      rw [List.map_cons, hmapbs, if_pos hb, List.filter_cons, List.filter_cons,
        if_pos hb, if_pos (show (({ b with balance := b.balance + amt } :
            UserBalance).userID == uid &&
          ({ b with balance := b.balance + amt } : UserBalance).tokenID == tid) = true
          from hb),
        hfilterbs]
      simp
    · have hmem' : (uid, tid) ∈ bs.map (fun b => (b.userID, b.tokenID)) := by
        rcases List.mem_cons.mp hmem with h | h
        · exact absurd (by
            have h1 : b.userID = uid := congrArg Prod.fst h.symm
            have h2 : b.tokenID = tid := congrArg Prod.snd h.symm
            simp [h1, h2]) hb
        · exact h
      have hfb : (if (b.userID == uid && b.tokenID == tid) = true
          then ({ b with balance := b.balance + amt } : UserBalance) else b) = b := by
        simp [hb]
      rw [List.map_cons, hfb, List.filter_cons, List.filter_cons, if_neg hb, if_neg hb]
      exact getBalance_list uid tid amt bs hnd.2 hmem'

theorem getBalance_addUserBalance {st : DBState} {uid tid : ℕ} (amt : Dec)
    (hnd : (st.balances.map (fun b => (b.userID, b.tokenID))).Nodup)
    (hmem : (uid, tid) ∈ st.balances.map (fun b => (b.userID, b.tokenID))) :
    getBalance (AddUserBalance st uid tid amt) uid tid
      = getBalance st uid tid + amt :=
  getBalance_list uid tid amt st.balances hnd hmem

theorem mustGetCANTokenID_cached {st : DBState} {tid : ℕ} (h : st.canCache = some tid) :
    mustGetCANTokenID st = .ok (tid, st) := by
  unfold mustGetCANTokenID
  rw [h]

/-- A claim loop whose every requested id is dead is a silent no-op. -/
theorem claimLoop_dead (uid : ℕ) :
    ∀ (ids : List ℕ) (st : DBState) (total : Dec),
      (∀ rid ∈ ids, rewardDead st uid rid) →
      claimLoop uid [] [] ids st total = .ok (st, total)
  | [], _, _, _ => rfl
  | rid :: rest, st, total, hdead => by
    have hrest : ∀ rid' ∈ rest, rewardDead st uid rid' :=
      fun rid' h => hdead rid' (List.mem_cons_of_mem rid h)
    cases hfind : GetBlockReward st rid with
    | none =>
      simp only [claimLoop, hfind]
      exact claimLoop_dead uid rest st total hrest
    | some r =>
      have hrmem : r ∈ st.rewards := List.mem_of_find?_eq_some hfind
      have hrid : r.id = rid := by simpa using List.find?_some hfind
      simp only [claimLoop, hfind]
      rw [if_pos (hdead rid (List.mem_cons_self rid rest) r hrmem hrid)]
      exact claimLoop_dead uid rest st total hrest

/-- The one-pass specification of the claim loop with no injected
failures: it returns the increase of the claimed-amount ledger, credits
the caller's CAN balance by exactly that quantity, leaves row identities,
balance keys and the token cache unchanged, and leaves every requested id
dead. -/
theorem claimLoop_spec (uid tid : ℕ) :
    ∀ (ids : List ℕ) (st : DBState) (total : Dec),
      (st.rewards.map (fun r => r.id)).Nodup →
      st.canCache = some tid →
      (st.balances.map (fun b => (b.userID, b.tokenID))).Nodup →
      (uid, tid) ∈ st.balances.map (fun b => (b.userID, b.tokenID)) →
      ∃ st' : DBState,
        claimLoop uid [] [] ids st total
          = .ok (st', total + (sumClaimed st' - sumClaimed st)) ∧
        st'.rewards.map (fun r => r.id) = st.rewards.map (fun r => r.id) ∧
        st'.canCache = st.canCache ∧
        st'.balances.map (fun b => (b.userID, b.tokenID))
          = st.balances.map (fun b => (b.userID, b.tokenID)) ∧
        getBalance st' uid tid
          = getBalance st uid tid + (sumClaimed st' - sumClaimed st) ∧
        (∀ rid ∈ ids, rewardDead st' uid rid) ∧
        (∀ rid, rewardDead st uid rid → rewardDead st' uid rid)
  | [], st, total, _, _, _, _ =>
    ⟨st, by simp [claimLoop], rfl, rfl, rfl, by simp, by simp, fun _ h => h⟩
  | rid :: rest, st, total, hnd, hcache, hbnd, hbmem => by
    cases hfind : GetBlockReward st rid with
    | none =>
      simp only [claimLoop, hfind]
      obtain ⟨st', heq, hids, hcc, hkeys, hbal, hdeadrest, hmono⟩ :=
        claimLoop_spec uid tid rest st total hnd hcache hbnd hbmem
      have hdead0 : rewardDead st uid rid := fun r hr hid =>
        absurd (by simp [hid]) (List.find?_eq_none.mp hfind r hr)
      refine ⟨st', heq, hids, hcc, hkeys, hbal, ?_, hmono⟩
      intro rid' hrid'
      rcases List.mem_cons.mp hrid' with h | h
      · rw [h]; exact hmono rid hdead0
      · exact hdeadrest rid' h
    | some r =>
      have hrmem : r ∈ st.rewards := List.mem_of_find?_eq_some hfind
      have hrid : r.id = rid := by simpa using List.find?_some hfind
      simp only [claimLoop, hfind]
      by_cases hskip : r.userID ≠ uid ∨ r.claimed = true
      · rw [if_pos hskip]
        obtain ⟨st', heq, hids, hcc, hkeys, hbal, hdeadrest, hmono⟩ :=
          claimLoop_spec uid tid rest st total hnd hcache hbnd hbmem
        have hdead0 : rewardDead st uid rid := by
          intro r' hr' hid'
          rw [find?_nodup_unique hnd hfind hr' hid']
          exact hskip
        refine ⟨st', heq, hids, hcc, hkeys, hbal, ?_, hmono⟩
        intro rid' hrid'
        rcases List.mem_cons.mp hrid' with h | h
        · rw [h]; exact hmono rid hdead0
        · exact hdeadrest rid' h
      · rw [if_neg hskip]
        push_neg at hskip
        have huncl : r.claimed = false := by simpa using hskip.2
        rw [if_neg (List.not_mem_nil rid)]
        have hcc1 : (ClaimReward st rid uid).canCache = some tid := hcache
        simp only [mustGetCANTokenID_cached hcc1]
        rw [if_neg (List.not_mem_nil rid)]
        set st3 := AddUserBalance (ClaimReward st rid uid) uid tid r.amount with hst3
        have hids3 : st3.rewards.map (fun r => r.id)
            = st.rewards.map (fun r => r.id) := claimReward_rewards_ids st rid uid
        have hnd3 : (st3.rewards.map (fun r => r.id)).Nodup := by
          rw [hids3]; exact hnd
        have hcc3 : st3.canCache = some tid := hcache
        have hkeys3 : st3.balances.map (fun b => (b.userID, b.tokenID))
            = st.balances.map (fun b => (b.userID, b.tokenID)) :=
          addUserBalance_balance_keys (ClaimReward st rid uid) uid tid r.amount
        have hbnd3 : (st3.balances.map (fun b => (b.userID, b.tokenID))).Nodup := by
          rw [hkeys3]; exact hbnd
        have hbmem3 : (uid, tid) ∈ st3.balances.map (fun b => (b.userID, b.tokenID)) := by
          rw [hkeys3]; exact hbmem
        have hsum3 : sumClaimed st3 = sumClaimed st + r.amount :=
          sumClaimed_claimReward hnd hfind hskip.1 huncl
        have hbal3 : getBalance st3 uid tid = getBalance st uid tid + r.amount :=
          getBalance_addUserBalance r.amount hbnd hbmem
        obtain ⟨st', heq, hids, hcc, hkeys, hbal, hdeadrest, hmono⟩ :=
          claimLoop_spec uid tid rest st3 (total + r.amount) hnd3 hcc3 hbnd3 hbmem3
        have harith : total + r.amount + (sumClaimed st' - sumClaimed st3)
            = total + (sumClaimed st' - sumClaimed st) := by
          rw [hsum3]; ring
        have hdead3 : rewardDead st3 uid rid := rewardDead_claimReward_self st rid uid
        refine ⟨st', by rw [heq, harith], hids.trans hids3, hcc, hkeys.trans hkeys3,
          ?_, ?_, ?_⟩
        · rw [hbal, hbal3, hsum3]; ring
        · intro rid' hrid'
          rcases List.mem_cons.mp hrid' with h | h
          · rw [h]; exact hmono rid hdead3
          · exact hdeadrest rid' h
        · intro rid' h
          exact hmono rid' (rewardDead_claimReward rid h)

/-! ## C3: sequential claim idempotence -/

/-- C3: with no injected query failures, `ClaimRewards` returns exactly
the sum of the amounts of the entries it transitioned from unclaimed to
claimed (ownership-failing, missing and already-claimed entries
contribute nothing), credits the caller's balance by exactly that amount,
and a second sequential run over the same ids is a silent no-op returning
zero on the unchanged state — each entry is credited exactly once. -/
theorem claimRewards_idempotent (st : DBState) (uid tid : ℕ) (ids : List ℕ)
    (hnd : (st.rewards.map (fun r => r.id)).Nodup)
    (hcache : st.canCache = some tid)
    (hbnd : (st.balances.map (fun b => (b.userID, b.tokenID))).Nodup)
    (hbmem : (uid, tid) ∈ st.balances.map (fun b => (b.userID, b.tokenID))) :
    ∃ st' a, ClaimRewards st uid ids [] [] = .ok (st', a) ∧
      a = sumClaimed st' - sumClaimed st ∧
      getBalance st' uid tid = getBalance st uid tid + a ∧
      ClaimRewards st' uid ids [] [] = .ok (st', 0) := by
  obtain ⟨st', heq, _, _, _, hbal, hdead, _⟩ :=
    claimLoop_spec uid tid ids st 0 hnd hcache hbnd hbmem
  rw [zero_add] at heq
  exact ⟨st', sumClaimed st' - sumClaimed st, heq, rfl, hbal,
    claimLoop_dead uid ids st' 0 hdead⟩

theorem claimRewards_idempotent_witness :
    ((c3State.rewards.map (fun r => r.id)).Nodup ∧
      c3State.canCache = some 7 ∧
      (c3State.balances.map (fun b => (b.userID, b.tokenID))).Nodup ∧
      (1, 7) ∈ c3State.balances.map (fun b => (b.userID, b.tokenID))) ∧
    ∃ st' a, ClaimRewards c3State 1 [10, 11] [] [] = .ok (st', a) ∧
      a = sumClaimed st' - sumClaimed c3State ∧
      getBalance st' 1 7 = getBalance c3State 1 7 + a ∧
      ClaimRewards st' 1 [10, 11] [] [] = .ok (st', 0) := by
  have h1 : (c3State.rewards.map (fun r => r.id)).Nodup := by simp [c3State]
  have h2 : c3State.canCache = some 7 := rfl
  have h3 : (c3State.balances.map (fun b => (b.userID, b.tokenID))).Nodup := by
    simp [c3State]
  have h4 : (1, 7) ∈ c3State.balances.map (fun b => (b.userID, b.tokenID)) := by
    simp [c3State]
  exact ⟨⟨h1, h2, h3, h4⟩, claimRewards_idempotent c3State 1 7 [10, 11] h1 h2 h3 h4⟩

/-! ## C4: the claim flag can be set without the balance credit -/

/-- C4 is violated by the code: when the balance-credit update fails
after the claim update succeeded (`creditFails = [10]`), `ClaimRewards`
reports overall success with amount 0 while the entry's claimed flag is
set and the balance was never credited — the two writes are separate
statements, not one atomic transaction (the code's own comment says a
transaction should be used), and the `ClaimReward` `UPDATE` carries no
`claimed = false` condition. -/
theorem claim_flag_set_without_credit :
    (ClaimRewards c3State 1 [10] [] [10]).isOk = true ∧
    c4Result.2 = 0 ∧
    (GetBlockReward c4Result.1 10).map (fun r => r.claimed) = some true ∧
    getBalance c4Result.1 1 7 = getBalance c3State 1 7 := by
  refine ⟨?_, ?_, ?_, ?_⟩ <;>
    norm_num [c4Result, c3State, ClaimRewards, claimLoop, GetBlockReward, ClaimReward,
      mustGetCANTokenID, GetTokenBySymbol, AddUserBalance, getBalance,
      Except.isOk, Except.toBool]

/-! ## C10: the CAN-token lookup, its panic and its cache -/

/-- The claim loop cannot hit the panic branch when a CAN token row
exists: it returns `.ok`, and the package-level cache is unchanged or
holds that token's id afterwards. -/
theorem claimLoop_no_panic (uid : ℕ) (cf df : List ℕ) (tok : Token) :
    ∀ (ids : List ℕ) (st : DBState) (total : Dec),
      GetTokenBySymbol st "CAN" = some tok →
      ∃ st' a, claimLoop uid cf df ids st total = .ok (st', a) ∧
        GetTokenBySymbol st' "CAN" = some tok ∧
        (st'.canCache = st.canCache ∨ st'.canCache = some tok.id)
  | [], st, total, htok => ⟨st, total, rfl, htok, Or.inl rfl⟩
  | rid :: rest, st, total, htok => by
    cases hfind : GetBlockReward st rid with
    | none =>
      simp only [claimLoop, hfind]
      exact claimLoop_no_panic uid cf df tok rest st total htok
    | some r =>
      simp only [claimLoop, hfind]
      by_cases hskip : r.userID ≠ uid ∨ r.claimed = true
      · rw [if_pos hskip]
        exact claimLoop_no_panic uid cf df tok rest st total htok
      · rw [if_neg hskip]
        by_cases hcf : rid ∈ cf
        · rw [if_pos hcf]
          exact claimLoop_no_panic uid cf df tok rest st total htok
        · rw [if_neg hcf]
          have htok1 : GetTokenBySymbol (ClaimReward st rid uid) "CAN" = some tok := htok
          cases hcache : st.canCache with
          | some c =>
            have hmust : mustGetCANTokenID (ClaimReward st rid uid)
                = .ok (c, ClaimReward st rid uid) := mustGetCANTokenID_cached hcache
            simp only [hmust]
            by_cases hdf : rid ∈ df
            · rw [if_pos hdf]
              obtain ⟨st', a, heq, htok', hor⟩ :=
                claimLoop_no_panic uid cf df tok rest (ClaimReward st rid uid) total htok1
              refine ⟨st', a, heq, htok', ?_⟩
              rcases hor with h | h
              · exact Or.inl ((show st'.canCache = st.canCache from h).trans hcache)
              · exact Or.inr h
            · rw [if_neg hdf]
              obtain ⟨st', a, heq, htok', hor⟩ := claimLoop_no_panic uid cf df tok rest
                (AddUserBalance (ClaimReward st rid uid) uid c r.amount)
                (total + r.amount) htok1
              refine ⟨st', a, heq, htok', ?_⟩
              rcases hor with h | h
              · exact Or.inl ((show st'.canCache = st.canCache from h).trans hcache)
              · exact Or.inr h
          | none =>
            have h0 : (ClaimReward st rid uid).canCache = none := hcache
            have hmust : mustGetCANTokenID (ClaimReward st rid uid)
                = .ok (tok.id, { ClaimReward st rid uid with canCache := some tok.id }) := by
              unfold mustGetCANTokenID
              rw [h0, htok1]
            simp only [hmust]
            have htok2 : GetTokenBySymbol
                { ClaimReward st rid uid with canCache := some tok.id } "CAN"
                = some tok := htok
            have hcc2 : ({ ClaimReward st rid uid with
                canCache := some tok.id } : DBState).canCache = some tok.id := rfl
            by_cases hdf : rid ∈ df
            · rw [if_pos hdf]
              obtain ⟨st', a, heq, htok', hor⟩ := claimLoop_no_panic uid cf df tok rest
                { ClaimReward st rid uid with canCache := some tok.id } total htok2
              refine ⟨st', a, heq, htok', Or.inr ?_⟩
              rcases hor with h | h
              · rw [h, hcc2]
              · exact h
            · rw [if_neg hdf]
              obtain ⟨st', a, heq, htok', hor⟩ := claimLoop_no_panic uid cf df tok rest
                (AddUserBalance { ClaimReward st rid uid with canCache := some tok.id }
                  uid tok.id r.amount) (total + r.amount) htok2
              refine ⟨st', a, heq, htok', Or.inr ?_⟩
              rcases hor with h | h
              · rw [h]; rfl
              · exact h

/-- C10: with no token row of symbol CAN and an empty cache, claiming a
valid unclaimed entry aborts the whole call through the
`mustGetCANTokenID` panic — after the entry's claimed flag is already
set and without crediting any balance; when a CAN token row exists the
panic branch is unreachable and the token id ends up cached (or the
cache was already populated and is reused). -/
theorem claimRewards_can_token_panic :
    (ClaimRewards c10State 1 [10] [] []
        = .error ("CAN token not found in database", c10Panic) ∧
      (GetBlockReward c10Panic 10).map (fun r => r.claimed) = some true ∧
      c10Panic.balances = c10State.balances) ∧
    (∀ (st : DBState) (uid : ℕ) (ids cf df : List ℕ) (tok : Token),
      GetTokenBySymbol st "CAN" = some tok →
      ∃ st' a, ClaimRewards st uid ids cf df = .ok (st', a) ∧
        (st'.canCache = st.canCache ∨ st'.canCache = some tok.id)) := by
  constructor
  · refine ⟨?_, ?_, rfl⟩ <;>
      norm_num [c10State, c10Panic, ClaimRewards, claimLoop, GetBlockReward,
        ClaimReward, mustGetCANTokenID, GetTokenBySymbol]
  · intro st uid ids cf df tok htok
    obtain ⟨st', a, heq, _, hor⟩ := claimLoop_no_panic uid cf df tok ids st 0 htok
    exact ⟨st', a, heq, hor⟩

theorem claimRewards_can_token_panic_witness :
    GetTokenBySymbol c10WitState "CAN" = some { id := 7, symbol := "CAN" } ∧
    ∃ st' a, ClaimRewards c10WitState 1 [10] [] [] = .ok (st', a) ∧
      (st'.canCache = c10WitState.canCache ∨ st'.canCache = some 7) := by
  have h : GetTokenBySymbol c10WitState "CAN" = some { id := 7, symbol := "CAN" } := rfl
  exact ⟨h, claimRewards_can_token_panic.2 c10WitState 1 [10] [] []
    { id := 7, symbol := "CAN" } h⟩

/-! ## C7: the upward walk has no depth guard -/

theorem ancestorLoop_c7_cycle (δ : Dec) :
    ∀ (fuel : ℕ) (st : DBState), st.users = c7Users →
      ancestorLoop δ fuel 1 st = none ∧ ancestorLoop δ fuel 2 st = none
  | 0, st, _ => ⟨rfl, rfl⟩
  | fuel + 1, st, husers => by
    have ih := ancestorLoop_c7_cycle δ fuel (AddTeamPower st 1 δ)
      (show (AddTeamPower st 1 δ).users = c7Users from husers)
    have ih' := ancestorLoop_c7_cycle δ fuel (AddTeamPower st 2 δ)
      (show (AddTeamPower st 2 δ).users = c7Users from husers)
    have h1 : GetUserByID (AddTeamPower st 1 δ) 1
        = some { id := 1, parentID := some 2, invitedBy := none } := by
      unfold GetUserByID
      rw [show (AddTeamPower st 1 δ).users = c7Users from husers]
      rfl
    have h2 : GetUserByID (AddTeamPower st 2 δ) 2
        = some { id := 2, parentID := some 1, invitedBy := none } := by
      unfold GetUserByID
      rw [show (AddTeamPower st 2 δ).users = c7Users from husers]
      rfl
    constructor
    · simp only [ancestorLoop]
      rw [if_neg (by decide : ¬(1 : ℕ) = 0)]
      simp only [h1]
      exact ih.2
    · simp only [ancestorLoop]
      rw [if_neg (by decide : ¬(2 : ℕ) = 0)]
      simp only [h2]
      exact ih'.1

/-- C7 is violated by the code: the upward walk of
`updateAncestorsTeamPower` has no maximum-depth guard and no visited set,
so on the corrupted two-node `parent_id` cycle of `c7State` it never
terminates — it is an infinite loop, not a bounded no-op. -/
theorem updateAncestorsTeamPower_cycle_diverges : c7RunsForever := by
  intro fuel
  show (ancestorLoop (5 : ℚ) fuel 1 c7State).map Except.ok = none
  rw [(ancestorLoop_c7_cycle 5 fuel c7State rfl).1]
  rfl

theorem ancestorLoop_terminates (δ : Dec) (f : ℕ → ℕ) :
    ∀ (fuel : ℕ) (current : ℕ) (st : DBState),
      (∀ u ∈ st.users, ∀ p, u.parentID = some p → f p < f u.id) →
      f current < fuel →
      ancestorLoop δ fuel current st ≠ none
  | 0, _, _, _, hfuel => absurd hfuel (Nat.not_lt_zero _)
  | fuel + 1, current, st, hf, hfuel => by
    simp only [ancestorLoop]
    by_cases hc : current = 0
    · rw [if_pos hc]
      simp
    · rw [if_neg hc]
      cases hu : GetUserByID (AddTeamPower st current δ) current with
      | none => simp [hu]
      | some u =>
        cases hp : u.parentID with
        | none => simp [hu, hp]
        | some p =>
          simp only [hu, hp]
          have humem : u ∈ st.users := List.mem_of_find?_eq_some hu
          have huid : u.id = current := by simpa using List.find?_some hu
          have hfp : f p < f current := huid ▸ hf u humem p hp
          exact ancestorLoop_terminates δ f fuel p (AddTeamPower st current δ) hf
            (lt_of_lt_of_le hfp (Nat.lt_succ_iff.mp hfuel))

/-- C7 (amended): the walk carries no configured depth guard — it stops
only at `uuid.Nil`, a missing user, or a root.  On an acyclic referral
graph (one admitting a rank strictly decreasing from every user to its
parent) the walk from the inviter terminates within `rank + 1` hops; on a
graph with a `parent_id` cycle it runs forever. -/
theorem updateAncestorsTeamPower_terminates_acyclic (st : DBState)
    (userID inviterID : ℕ) (f : ℕ → ℕ) (fuel : ℕ)
    (hf : ∀ u ∈ st.users, ∀ p, u.parentID = some p → f p < f u.id)
    (hfuel : f inviterID < fuel) :
    updateAncestorsTeamPower st userID inviterID fuel ≠ none := by
  unfold updateAncestorsTeamPower
  cases hcp : GetCombatPower st userID with
  | none => simp
  | some cp =>
    simp only [Ne, Option.map_eq_none']
    exact ancestorLoop_terminates cp.personalPower f fuel inviterID st hf hfuel

theorem updateAncestorsTeamPower_terminates_witness :
    (∀ u ∈ c7WitState.users, ∀ p, u.parentID = some p → id p < id u.id) ∧
    id 2 < 3 ∧
    updateAncestorsTeamPower c7WitState 3 2 3 ≠ none := by
  have hf : ∀ u ∈ c7WitState.users, ∀ p, u.parentID = some p → id p < id u.id := by
    simp only [c7WitState]
    decide
  exact ⟨hf, by decide,
    updateAncestorsTeamPower_terminates_acyclic c7WitState 3 2 id 3 hf (by decide)⟩

/-! ## C9: block number allocation -/

theorem foldl_lastBlock_le :
    ∀ (l : List MintBlock) (acc : Option MintBlock) (b : MintBlock),
      (b ∈ l ∨ acc = some b) →
      ∃ m, l.foldl lastBlockStep acc = some m ∧ b.blockNumber ≤ m.blockNumber
  | [], acc, b, h => by
    rcases h with h | h
    · simp at h
    · exact ⟨b, by rw [List.foldl_nil, h], le_refl _⟩
  | x :: xs, acc, b, h => by
    rw [List.foldl_cons]
    have hacc : ∃ c, lastBlockStep acc x = some c ∧ x.blockNumber ≤ c.blockNumber ∧
        (∀ b0, acc = some b0 → b0.blockNumber ≤ c.blockNumber) := by
      cases acc with
      | none => exact ⟨x, rfl, le_refl _, fun b0 h0 => by simp at h0⟩
      | some m0 =>
        by_cases hlt : m0.blockNumber < x.blockNumber
        · exact ⟨x, by simp [lastBlockStep, hlt], le_refl _,
            fun b0 h0 => by cases h0; exact le_of_lt hlt⟩
        · exact ⟨m0, by simp [lastBlockStep, hlt], le_of_not_lt hlt,
            fun b0 h0 => by cases h0; exact le_refl _⟩
    obtain ⟨c, hc, hxc, hacc0⟩ := hacc
    rw [hc]
    rcases h with h | h
    · rcases List.mem_cons.mp h with hbx | hbxs
      · obtain ⟨m, hm, hcm⟩ := foldl_lastBlock_le xs (some c) c (Or.inr rfl)
        exact ⟨m, hm, le_trans (hbx ▸ hxc) hcm⟩
      · exact foldl_lastBlock_le xs (some c) b (Or.inl hbxs)
    · obtain ⟨m, hm, hcm⟩ := foldl_lastBlock_le xs (some c) c (Or.inr rfl)
      exact ⟨m, hm, le_trans (hacc0 b h) hcm⟩

theorem getLastMintBlock_is_max {st : DBState} {b : MintBlock} (hb : b ∈ st.blocks) :
    ∃ m, GetLastMintBlock st = some m ∧ b.blockNumber ≤ m.blockNumber :=
  foldl_lastBlock_le st.blocks none b (Or.inl hb)

theorem find?_append_singleton {α : Type} (p : α → Bool) (x : α) :
    ∀ l : List α, (∀ a ∈ l, ¬p a = true) → p x = true → (l ++ [x]).find? p = some x
  | [], _, hx => by
    rw [List.nil_append]
    exact List.find?_cons_of_pos [] hx
  | a :: l, h, hx => by
    rw [List.cons_append]
    have hstep : List.find? p (a :: (l ++ [x])) = List.find? p (l ++ [x]) :=
      List.find?_cons_of_neg _ (h a (List.mem_cons_self a l))
    rw [hstep]
    exact find?_append_singleton p x l (fun a ha => h a (List.mem_cons_of_mem _ ha)) hx

/-- `CalculateWeights` on a block present in the store always succeeds,
ends with the block marked distributed, and has written one weight
snapshot per user. -/
theorem calculateWeights_effect (st : DBState) (blockID : ℕ) (block : MintBlock)
    (hb : GetBlockByID st blockID = some block) :
    ∃ st', CalculateWeights st blockID [] [] = .ok st' ∧
      { block with distributed := true } ∈ st'.blocks ∧
      ∀ u ∈ st.users, ∃ s ∈ st'.snapshots, s.userID = u.id ∧ s.blockID = blockID := by
  unfold CalculateWeights
  rw [foldl_snapshotUser]
  set rows := ((st.users.filter (fun u => !decide (u.id ∈ ([] : List ℕ)))).map
    (snapRow st blockID)) with hrows
  have hrows' : rows = st.users.map (snapRow st blockID) := by
    rw [hrows]
    congr 1
    exact List.filter_eq_self.mpr (fun x _ => by simp)
  set stMid : DBState := { st with snapshots := st.snapshots ++ rows } with hstMid
  have hbMid : GetBlockByID stMid blockID = some block := hb
  have hsnapmem : ∀ u ∈ st.users,
      ∃ s ∈ stMid.snapshots, s.userID = u.id ∧ s.blockID = blockID := by
    intro u hu
    refine ⟨snapRow st blockID u, ?_, rfl, rfl⟩
    rw [show stMid.snapshots = st.snapshots ++ rows from rfl]
    refine List.mem_append_right _ ?_
    rw [hrows']
    exact List.mem_map_of_mem (snapRow st blockID) hu
  rw [DistributeRewards_eq stMid blockID block [] hbMid]
  by_cases hW : ((GetWeightSnapshotsByBlock stMid blockID).map snapTotalWeight).sum = 0
  · rw [if_pos hW]
    refine ⟨_, rfl, ?_, hsnapmem⟩
    exact List.mem_of_find?_eq_some (getBlockByID_update hbMid)
  · rw [if_neg hW]
    refine ⟨_, rfl, ?_, hsnapmem⟩
    exact List.mem_of_find?_eq_some (getBlockByID_update
      (show GetBlockByID { stMid with
          rewards := stMid.rewards ++ mkRewards block.totalReward blockID
            ((GetWeightSnapshotsByBlock stMid blockID).map snapTotalWeight).sum []
            (GetWeightSnapshotsByBlock stMid blockID) stMid.nextID,
          nextID := stMid.nextID + (mkRewards block.totalReward blockID
            ((GetWeightSnapshotsByBlock stMid blockID).map snapTotalWeight).sum []
            (GetWeightSnapshotsByBlock stMid blockID) stMid.nextID).length }
        blockID = some block from hbMid))

/-- C9: `CreateNewBlock` allocates block number `last known + 1` (`1`
when no block exists), persists the new 1000-reward block row under a
fresh id, and then triggers the snapshot and the distribution for it —
the final store holds the block marked distributed and one weight
snapshot per user, and the number sequence has no gap. -/
theorem createNewBlock_allocates_next_number (st : DBState)
    (hid : ∀ b ∈ st.blocks, b.id ≠ st.nextID) :
    ∃ st' block, CreateNewBlock st [] [] = .ok (st', block) ∧
      block.blockNumber = (match GetLastMintBlock st with
        | some lastBlock => lastBlock.blockNumber + 1
        | none => 1) ∧
      block.totalReward = 1000 ∧
      block.id = st.nextID ∧
      { block with distributed := true } ∈ st'.blocks ∧
      ∀ u ∈ st.users, ∃ s ∈ st'.snapshots, s.userID = u.id ∧ s.blockID = block.id := by
  set next : ℤ := (match GetLastMintBlock st with
    | some lastBlock => lastBlock.blockNumber + 1
    | none => 1) with hnext
  have hnocollision : ∀ b ∈ st.blocks, ¬(b.blockNumber == next) = true := by
    intro b hbmem hcol
    obtain ⟨m, hm, hle⟩ := getLastMintBlock_is_max hbmem
    rw [hnext, hm] at hcol
    have : b.blockNumber = m.blockNumber + 1 := by simpa using hcol
    omega
  have hany : st.blocks.any (fun b => b.blockNumber == next) = false := by
    rw [List.any_eq_false]
    exact hnocollision
  set block : MintBlock :=
    { id := st.nextID, blockNumber := next, totalReward := 1000, distributed := false }
    with hblock
  set st1 : DBState :=
    { st with blocks := st.blocks ++ [block], nextID := st.nextID + 1 }
    with hst1
  have hcmb : CreateMintBlock st next 1000 = .ok (st1, block) := by
    unfold CreateMintBlock
    rw [if_neg (by rw [hany]; exact Bool.false_ne_true)]
  have hb1 : GetBlockByID st1 block.id = some block := by
    unfold GetBlockByID
    rw [show st1.blocks = st.blocks ++ [block] from rfl]
    exact find?_append_singleton _ block st.blocks
      (fun b hbmem => by simpa using hid b hbmem) (by simp)
  obtain ⟨st2, hcw, hmem, hsnaps⟩ := calculateWeights_effect st1 block.id block hb1
  refine ⟨st2, block, ?_, rfl, rfl, rfl, hmem, ?_⟩
  · unfold CreateNewBlock
    rw [← hnext]
    simp only [hcmb, hcw]
  · intro u hu
    exact hsnaps u hu

theorem createNewBlock_allocates_next_number_witness :
    (∀ b ∈ c9WitState.blocks, b.id ≠ c9WitState.nextID) ∧
    GetLastMintBlock c9WitState
      = some { id := 1, blockNumber := 5, totalReward := 1000, distributed := true } ∧
    ∃ st' block, CreateNewBlock c9WitState [] [] = .ok (st', block) ∧
      block.blockNumber = (match GetLastMintBlock c9WitState with
        | some lastBlock => lastBlock.blockNumber + 1
        | none => 1) ∧
      block.totalReward = 1000 ∧
      block.id = c9WitState.nextID ∧
      { block with distributed := true } ∈ st'.blocks ∧
      ∀ u ∈ c9WitState.users, ∃ s ∈ st'.snapshots, s.userID = u.id ∧ s.blockID = block.id := by
  have hid : ∀ b ∈ c9WitState.blocks, b.id ≠ c9WitState.nextID := by
    simp [c9WitState]
  exact ⟨hid, rfl, createNewBlock_allocates_next_number c9WitState hid⟩

/-! ## C8: the recursive team tree computes exactly the downline -/

theorem mem_closeStep {users : List GUser} {V : List ℕ} {v : ℕ}
    (h : v ∈ closeStep users V) :
    v ∈ V ∨ ∃ u ∈ users, u.id = v ∧ ∃ p ∈ V, isChildOf u p = true := by
  unfold closeStep at h
  rcases List.mem_append.mp h with h | h
  · exact Or.inl h
  · obtain ⟨u, hu, huv⟩ := List.mem_map.mp h
    obtain ⟨hu1, hcond⟩ := List.mem_filter.mp hu
    rw [Bool.and_eq_true] at hcond
    obtain ⟨p, hp, hpc⟩ := List.any_eq_true.mp hcond.2
    exact Or.inr ⟨u, hu1, huv, p, hp, hpc⟩

theorem subset_closeStep (users : List GUser) (V : List ℕ) : V ⊆ closeStep users V :=
  fun _ ha => List.mem_append_left _ ha

theorem closeStep_fixed_closed {users : List GUser} {V : List ℕ}
    (hfix : closeStep users V = V) :
    ∀ p ∈ V, ∀ u ∈ users, isChildOf u p = true → u.id ∈ V := by
  intro p hp u hu hc
  by_contra hnot
  have hfilt : u ∈ users.filter
      (fun u => !V.contains u.id && V.any (fun p => isChildOf u p)) := by
    rw [List.mem_filter]
    refine ⟨hu, ?_⟩
    rw [Bool.and_eq_true]
    exact ⟨by simpa using hnot, List.any_eq_true.mpr ⟨p, hp, hc⟩⟩
  have hmem : u.id ∈ closeStep users V :=
    List.mem_append_right _ (List.mem_map_of_mem _ hfilt)
  rw [hfix] at hmem
  exact hnot hmem

theorem root_mem_iterate (users : List GUser) (root : ℕ) :
    ∀ n, root ∈ (closeStep users)^[n] [root]
  | 0 => List.mem_singleton.mpr rfl
  | n + 1 => by
    rw [Function.iterate_succ_apply']
    exact subset_closeStep users _ (root_mem_iterate users root n)

theorem mem_iterate_sound (users : List GUser) (root : ℕ) :
    ∀ n, ∀ v ∈ (closeStep users)^[n] [root],
      v = root ∨ Relation.TransGen (childEdge users) root v
  | 0, v, hv => Or.inl (by simpa using hv)
  | n + 1, v, hv => by
    rw [Function.iterate_succ_apply'] at hv
    rcases mem_closeStep hv with h | ⟨u, hu, huv, p, hp, hpc⟩
    · exact mem_iterate_sound users root n v h
    · have hedge : childEdge users p v := ⟨u, hu, huv, hpc⟩
      rcases mem_iterate_sound users root n p hp with h | h
      · exact Or.inr (h ▸ Relation.TransGen.single hedge)
      · exact Or.inr (Relation.TransGen.tail h hedge)

theorem mem_iterate_subset (users : List GUser) (root : ℕ) :
    ∀ n, ∀ v ∈ (closeStep users)^[n] [root], v ∈ root :: users.map (fun u => u.id)
  | 0, v, hv => by
    rw [show v = root from by simpa using hv]
    exact List.mem_cons_self _ _
  | n + 1, v, hv => by
    rw [Function.iterate_succ_apply'] at hv
    rcases mem_closeStep hv with h | ⟨u, hu, huv, _, _, _⟩
    · exact mem_iterate_subset users root n v h
    · exact List.mem_cons_of_mem _ (huv ▸ List.mem_map_of_mem _ hu)

theorem closeStep_nodup {users : List GUser} {V : List ℕ}
    (hnd : (users.map (fun u => u.id)).Nodup) (hV : V.Nodup) :
    (closeStep users V).Nodup := by
  unfold closeStep
  refine List.Nodup.append hV ?_ ?_
  · exact ((List.filter_sublist users).map (fun u => u.id)).nodup hnd
  · intro a haV hanew
    obtain ⟨u, hu, hua⟩ := List.mem_map.mp hanew
    obtain ⟨_, hcond⟩ := List.mem_filter.mp hu
    rw [Bool.and_eq_true] at hcond
    have : u.id ∉ V := by simpa using hcond.1
    exact this (hua ▸ haV)

theorem iterate_nodup (users : List GUser) (root : ℕ)
    (hnd : (users.map (fun u => u.id)).Nodup) :
    ∀ n, ((closeStep users)^[n] [root]).Nodup
  | 0 => List.nodup_singleton root
  | n + 1 => by
    rw [Function.iterate_succ_apply']
    exact closeStep_nodup hnd (iterate_nodup users root hnd n)

theorem nodup_length_le_of_subset {α : Type} [DecidableEq α] {l l' : List α}
    (hnd : l.Nodup) (hsub : ∀ a ∈ l, a ∈ l') : l.length ≤ l'.length := by
  rw [← List.toFinset_card_of_nodup hnd]
  calc l.toFinset.card
      ≤ l'.toFinset.card := Finset.card_le_card (fun a ha => by
        rw [List.mem_toFinset] at ha ⊢
        exact hsub a ha)
    _ ≤ l'.length := List.toFinset_card_le l'

theorem iterate_length_le (users : List GUser) (root : ℕ)
    (hnd : (users.map (fun u => u.id)).Nodup) (n : ℕ) :
    ((closeStep users)^[n] [root]).length ≤ users.length + 1 := by
  have h := nodup_length_le_of_subset (iterate_nodup users root hnd n)
    (mem_iterate_subset users root n)
  simpa using h

theorem closeStep_ne_length {users : List GUser} {V : List ℕ}
    (hne : closeStep users V ≠ V) :
    V.length + 1 ≤ (closeStep users V).length := by
  unfold closeStep at hne ⊢
  set news := (users.filter
    (fun u => !V.contains u.id && V.any (fun p => isChildOf u p))).map (fun u => u.id)
  have hnews : news ≠ [] := by
    intro h
    exact hne (by rw [h, List.append_nil])
  rw [List.length_append]
  have : 1 ≤ news.length := List.length_pos.mpr hnews
  omega

theorem iterate_stable (users : List GUser) (root : ℕ) {k : ℕ}
    (hfix : closeStep users ((closeStep users)^[k] [root]) = (closeStep users)^[k] [root]) :
    ∀ m, (closeStep users)^[k + m] [root] = (closeStep users)^[k] [root]
  | 0 => rfl
  | m + 1 => by
    rw [show k + (m + 1) = (k + m) + 1 from rfl, Function.iterate_succ_apply',
      iterate_stable users root hfix m, hfix]

theorem teamClosure_fixed (users : List GUser) (root : ℕ)
    (hnd : (users.map (fun u => u.id)).Nodup) :
    closeStep users (teamClosure users root) = teamClosure users root := by
  have hex : ∃ k, k ≤ users.length + 1 ∧
      closeStep users ((closeStep users)^[k] [root]) = (closeStep users)^[k] [root] := by
    by_contra hno
    push_neg at hno
    have hgrow : ∀ k, k ≤ users.length + 2 →
        k + 1 ≤ ((closeStep users)^[k] [root]).length := by
      intro k
      induction k with
      | zero => intro _; simp
      | succ k ih =>
        intro hk
        have h1 := ih (by omega)
        have hne := hno k (by omega)
        rw [Function.iterate_succ_apply']
        have h2 := closeStep_ne_length hne
        omega
    have h1 := hgrow (users.length + 2) (le_refl _)
    have h2 := iterate_length_le users root hnd (users.length + 2)
    omega
  obtain ⟨k, hk, hfix⟩ := hex
  have h1 : teamClosure users root = (closeStep users)^[k] [root] := by
    have := iterate_stable users root hfix (users.length + 1 - k)
    rw [show k + (users.length + 1 - k) = users.length + 1 from by omega] at this
    exact this
  rw [h1, hfix, ← h1]

theorem reach_mem_teamClosure (users : List GUser) (root : ℕ)
    (hnd : (users.map (fun u => u.id)).Nodup) :
    ∀ v, Relation.ReflTransGen (childEdge users) root v →
      v ∈ teamClosure users root := by
  intro v h
  induction h with
  | refl => exact root_mem_iterate users root (users.length + 1)
  | tail _ hbc ih =>
    obtain ⟨u, hu, huc, hcb⟩ := hbc
    exact huc ▸ closeStep_fixed_closed (teamClosure_fixed users root hnd) _ ih u hu hcb

theorem mem_teamClosure_iff (users : List GUser) (root : ℕ)
    (hnd : (users.map (fun u => u.id)).Nodup) (v : ℕ) :
    v ∈ teamClosure users root ↔
      (v = root ∨ Relation.TransGen (childEdge users) root v) := by
  constructor
  · exact mem_iterate_sound users root (users.length + 1) v
  · intro h
    rcases h with h | h
    · exact h ▸ root_mem_iterate users root (users.length + 1)
    · exact reach_mem_teamClosure users root hnd v h.to_reflTransGen

theorem mem_downlineIDs_iff (users : List GUser) (root : ℕ)
    (hnd : (users.map (fun u => u.id)).Nodup) (v : ℕ) :
    v ∈ downlineIDs users root ↔ (v ≠ root ∧ InDownline users root v) := by
  unfold downlineIDs InDownline
  rw [List.mem_filter]
  constructor
  · rintro ⟨hmem, hne⟩
    have hv : v ≠ root := by simpa using hne
    rcases (mem_teamClosure_iff users root hnd v).mp hmem with h | h
    · exact absurd h hv
    · exact ⟨hv, h⟩
  · rintro ⟨hv, h⟩
    exact ⟨(mem_teamClosure_iff users root hnd v).mpr (Or.inr h), by simpa using hv⟩

theorem filter_map_sum {α : Type} (p : α → Bool) (f : α → ℚ) :
    ∀ l : List α, ((l.filter p).map f).sum = (l.map (fun x => if p x then f x else 0)).sum
  | [] => rfl
  | x :: l => by
    rw [List.filter_cons, List.map_cons]
    by_cases hx : p x = true
    · rw [if_pos hx, if_pos hx, List.map_cons, List.sum_cons, List.sum_cons,
        filter_map_sum p f l]
    · rw [if_neg hx, if_neg hx, List.sum_cons, filter_map_sum p f l, zero_add]

theorem getUserNode_upsert (st : DBState) (uid : ℕ) (lvl : ℤ) (tp : Dec) (tm dr : ℤ) :
    GetUserNode (UpsertUserNode st uid lvl tp tm dr) uid
      = some { userID := uid, currentLevel := lvl, teamPower := tp,
               teamMembers := tm, directReferrals := dr } := by
  set row : UserNode :=
    { userID := uid, currentLevel := lvl, teamPower := tp,
      teamMembers := tm, directReferrals := dr }
    with hrowdef
  have hprow : (row.userID == uid) = true := by simp [hrowdef]
  unfold GetUserNode
  have hun : (UpsertUserNode st uid lvl tp tm dr).userNodes
      = if (st.userNodes.any (fun n => n.userID == uid)) = true
        then st.userNodes.map (fun n => if (n.userID == uid) = true then row else n)
        else st.userNodes ++ [row] := by
    unfold UpsertUserNode
    split <;> rfl
  rw [hun]
  by_cases hany : (st.userNodes.any (fun n => n.userID == uid)) = true
  · rw [if_pos hany]
    rw [find?_map_comm _ _ (fun n => by
      by_cases hn : (n.userID == uid) = true
      · rw [if_pos hn, hprow, hn]
      · rw [if_neg hn]) st.userNodes]
    obtain ⟨n₀, hn₀, hp₀⟩ := List.any_eq_true.mp hany
    cases hfind : st.userNodes.find? (fun n => n.userID == uid) with
    | none => exact absurd hp₀ (List.find?_eq_none.mp hfind n₀ hn₀)
    | some n₁ =>
      have hp₁ : n₁.userID = uid := by simpa using List.find?_some hfind
      simp [hp₁]
  · rw [if_neg hany]
    have hfalse : st.userNodes.any (fun n => n.userID == uid) = false := by
      simpa using hany
    exact find?_append_singleton _ row st.userNodes
      (fun n hn => by simpa using List.any_eq_false.mp hfalse n hn) hprow

open Classical in
/-- C8: `RecalculateTeamStats` stores as the participant's team power
exactly the sum of personal power over every participant in their entire
downline — every user reachable downward through the
`invited_by`/`parent_id` referral edges in one or more steps, enumerated
recursively, not just direct referrals. -/
theorem recalculateTeamStats_team_power (st : DBState) (root : ℕ)
    (hnd : (st.users.map (fun u => u.id)).Nodup) :
    GetUserNode (RecalculateTeamStats st root) root
      = some { userID := root, currentLevel := 0,
               teamPower := (st.combatPowers.map (fun c =>
                 if c.userID ≠ root ∧ InDownline st.users root c.userID
                 then c.personalPower else 0)).sum,
               teamMembers := (GetTeamMemberCount st root : ℤ),
               directReferrals := (GetDirectReferralCount st root : ℤ) } := by
  have key : GetTeamPower st root = (st.combatPowers.map (fun c =>
      if c.userID ≠ root ∧ InDownline st.users root c.userID
      then c.personalPower else 0)).sum := by
    unfold GetTeamPower
    rw [filter_map_sum]
    refine congrArg List.sum (List.map_congr_left (fun c _ => ?_))
    refine if_congr ?_ rfl rfl
    constructor
    · intro h
      exact (mem_downlineIDs_iff st.users root hnd c.userID).mp (by simpa using h)
    · intro h
      simpa using (mem_downlineIDs_iff st.users root hnd c.userID).mpr h
  unfold RecalculateTeamStats
  rw [getUserNode_upsert, key]

open Classical in
theorem recalculateTeamStats_team_power_witness :
    (c8WitState.users.map (fun u => u.id)).Nodup ∧
    GetTeamPower c8WitState 1 = 15 ∧
    GetUserNode (RecalculateTeamStats c8WitState 1) 1
      = some { userID := 1, currentLevel := 0,
               teamPower := (c8WitState.combatPowers.map (fun c =>
                 if c.userID ≠ 1 ∧ InDownline c8WitState.users 1 c.userID
                 then c.personalPower else 0)).sum,
               teamMembers := (GetTeamMemberCount c8WitState 1 : ℤ),
               directReferrals := (GetDirectReferralCount c8WitState 1 : ℤ) } := by
  have hnd : (c8WitState.users.map (fun u => u.id)).Nodup := by simp [c8WitState]
  refine ⟨hnd, ?_, recalculateTeamStats_team_power c8WitState 1 hnd⟩
  norm_num [GetTeamPower, c8WitState, downlineIDs, teamClosure, closeStep, isChildOf,
    Nat.iterate]

end Canlan
